import Mathlib

/-!
Verification of the release-pr action (crate resolution, version
reconciliation and orchestration), shallowly embedded from the
TypeScript sources (src/main.ts, src/schema.ts).  External effects
(process execution, the repository API, the filesystem, templating)
are modelled by an explicit environment structure; the orchestrator
is modelled in a writer monad that records the trace of observable
events (commands executed, outputs set, API calls made).
-/

/-- A package descriptor as produced by the workspace listing
(interface WorkspaceMember / CrateDetails in main.ts): name,
filesystem location and current version string. -/
structure Crate where
  name : String
  path : String
  version : String
deriving DecidableEq, Repr

/-- The package selector (interface CrateArgs in main.ts).  The
string fields are JavaScript strings that may be absent; absence is
modelled by none.  releaseAll defaults to false. -/
structure CrateArgs where
  name : Option String := none
  path : Option String := none
  releaseAll : Bool := false
deriving DecidableEq, Repr

/-- JavaScript truthiness of an optional string: undefined, null and
the empty string are falsy; every other string is truthy. -/
def jsTruthy : Option String → Bool
  | none => false
  | some s => s != ""

instance {ε α : Type} [DecidableEq ε] [DecidableEq α] : DecidableEq (Except ε α) := by
  intro a b
  cases a <;> cases b
  case error.error x y =>
    exact if h : x = y then .isTrue (by rw [h]) else .isFalse (by intro he; injection he; contradiction)
  case error.ok x y => exact .isFalse (by intro he; injection he)
  case ok.error x y => exact .isFalse (by intro he; injection he)
  case ok.ok x y =>
    exact if h : x = y then .isTrue (by rw [h]) else .isFalse (by intro he; injection he; contradiction)

/-- Git identity and branch naming options (inputs.git in schema.ts).
The branchPref field embeds the branchPrefix input. -/
structure GitOpts where
  name : String
  email : String
  branchPref : String
  branchSeparator : String
deriving DecidableEq, Repr

/-- Branch-name computation, from makeBranchName in main.ts:
the JavaScript array [branchPrefix, crate, version] is filtered for
truthiness (dropping a false crate token and empty strings) and then
joined with the separator.  The crate argument of type false-or-string
is modelled as an Option String. -/
def makeBranchName (version : String) (crate : Option String) (git : GitOpts) : String :=
  String.intercalate git.branchSeparator
    (([some git.branchPref, crate, some version].filterMap id).filter (fun s => !s.isEmpty))

/-- Error message thrown by pkgid when releasing all crates and a
crate reports a version different from the first-seen one. -/
def mismatchMsg (pkg : Crate) (expected : String) : String :=
  "multiple crates with different versions: crate=" ++ pkg.name ++
    " version=" ++ pkg.version ++ " expected=" ++ expected

/-- The release-all verification loop of pkgid (main.ts lines
868-889): walk the snapshot, remembering the first truthy version
seen; a later crate with a different version aborts with a mismatch
error; otherwise all crates are accumulated.  previousVersion is a
JavaScript variable starting at null, tested for truthiness. -/
def versionLoop : List Crate → Option String → List Crate → Except String (List Crate)
  | [], _, parsed =>
      if parsed.length == 0 then .error "no good crates found" else .ok parsed
  | pkg :: rest, previousVersion, parsed =>
      if !(jsTruthy previousVersion) then
        versionLoop rest (some pkg.version) (parsed ++ [pkg])
      else if some pkg.version != previousVersion then
        .error (mismatchMsg pkg (previousVersion.getD ""))
      else
        versionLoop rest previousVersion (parsed ++ [pkg])

/-- Per-entry match test of the pkgid search loop (main.ts lines
851-856): the entry matches if the selector name is truthy and equal
to the entry name, OR the normalized selector path is truthy and
equal to the entry path. -/
def crateMatches (name : Option String) (cratePath : Option String) (pkg : Crate) : Bool :=
  (jsTruthy name && name == some pkg.name) ||
    (jsTruthy cratePath && cratePath == some pkg.path)

/-- The pure selection logic of pkgid (main.ts lines 842-893), after
the workspace listing has been parsed into the snapshot pkgs.  The
realpath function models path.resolve(cwd, path.normalize(.)), an
environment-dependent normalization. -/
def pkgidSelect (realpath : String → String) (crate : CrateArgs) (pkgs : List Crate) :
    Except String (List Crate) :=
  if jsTruthy crate.name || jsTruthy crate.path then
    let cratePath : Option String :=
      if jsTruthy crate.path then crate.path.map realpath else none
    match pkgs.find? (crateMatches crate.name cratePath) with
    | some pkg => .ok [pkg]
    | none => .error "no matching crate found"
  else if pkgs.length == 1 then
    .ok pkgs
  else if !crate.releaseAll then
    .error "multiple crates in the workspace, but crate-release-all is false"
  else
    versionLoop pkgs none []

/-- Decimal value of a digit list (most significant first). -/
def digitsVal : List Char → Nat
  | [] => 0
  | c :: cs => (c.toNat - '0'.toNat) * 10 ^ cs.length + digitsVal cs

/-- Strict numeric identifier parse as used by semver: nonempty, all
digits, no leading zero (except the single digit 0). -/
def parseNumStrict (s : String) : Option Nat :=
  if s.data ≠ [] && s.data.all Char.isDigit &&
      !(s.data.length > 1 && s.data.head? == some '0') then
    some (digitsVal s.data)
  else none

/-- JavaScript whitespace class (the relevant ASCII part). -/
def isJsSpace (c : Char) : Bool :=
  c == ' ' || c == '\t' || c == '\n' || c == '\r' || c == '\x0b' || c == '\x0c'

/-- Whitespace trim on both ends. -/
def strTrim (s : String) : String :=
  String.mk (((s.data.dropWhile isJsSpace).reverse.dropWhile isJsSpace).reverse)

/-- Split a character list at every occurrence of the separator
character (the behavior of splitOn with a one-character separator). -/
def splitOnCharAux (sep : Char) : List Char → List Char → List String
  | [], acc => [String.mk acc.reverse]
  | x :: xs, acc =>
      if x == sep then String.mk acc.reverse :: splitOnCharAux sep xs []
      else splitOnCharAux sep xs (x :: acc)

def splitOnChar (sep : Char) (s : String) : List String := splitOnCharAux sep s.data []

/-- Model of semver.clean restricted to the character set the version
regex of runCargoRelease can capture (digits and dots): trim, strip a
leading run of = or v, then parse exactly major.minor.patch with
strict numeric components.  Anything else cleans to null (none). -/
def semverClean (s : String) : Option (Nat × Nat × Nat) :=
  let t := String.mk ((strTrim s).data.dropWhile (fun c => c == '=' || c == 'v'))
  match splitOnChar '.' t with
  | [a, b, c] => do
      let x ← parseNumStrict a
      let y ← parseNumStrict b
      let z ← parseNumStrict c
      pure (x, y, z)
  | _ => none

/-- Model of semver.satisfies(v, ">=0.23.0") on a cleaned version
triple. -/
def crThreshold : Nat × Nat × Nat → Bool
  | (maj, minr, _) => maj > 0 || (maj == 0 && minr ≥ 23)

/-- Case-insensitive literal match: if the pattern (first argument)
is a prefix of the text up to ASCII case, return the remainder of the
text. -/
def ciPref : List Char → List Char → Option (List Char)
  | [], rest => some rest
  | _, [] => none
  | p :: ps, c :: cs => if p.toLower == c.toLower then ciPref ps cs else none

/-- Character class of the version capture group: digits and dots. -/
def isVerChar (c : Char) : Bool := c.isDigit || c == '.'

/-- Attempt the regex cargo-release\s+([\d.]+) (case-insensitive) at
the start of the given character list, returning the capture group. -/
def matchHere (cs : List Char) : Option String :=
  match ciPref "cargo-release".data cs with
  | none => none
  | some rest =>
      let sp := rest.takeWhile isJsSpace
      if sp.isEmpty then none
      else
        let rest2 := rest.dropWhile isJsSpace
        let ver := rest2.takeWhile isVerChar
        if ver.isEmpty then none else some (String.mk ver)

/-- Leftmost match of the version regex over the whole string. -/
def matchCRVersionAux : List Char → Option String
  | [] => none
  | c :: cs =>
      match matchHere (c :: cs) with
      | some v => some v
      | none => matchCRVersionAux cs

/-- The capture extraction of runCargoRelease (main.ts lines 543-547):
first capture of cargo-release\s+([\d.]+) over the version output, or
the empty string when there is no match. -/
def matchCRVersion (s : String) : String := (matchCRVersionAux s.data).getD ""

/-- Detected cargo-release version: the capture, cleaned. -/
def crVersionOf (out : String) : Option (Nat × Nat × Nat) :=
  semverClean (matchCRVersion out)

/-- Minimal URL structure (scheme, hostname, pathname), sufficient
for the API pull-request URLs rewritten by makePR. -/
structure UrlParts where
  scheme : String
  host : String
  pathname : String
deriving DecidableEq, Repr

/-- Split a character list at the first occurrence of the literal
separator sequence colon-slash-slash, returning the parts before and
after it. -/
def splitSchemeAux : List Char → Option (List Char × List Char)
  | ':' :: '/' :: '/' :: rest => some ([], rest)
  | c :: cs => (splitSchemeAux cs).map (fun p => (c :: p.1, p.2))
  | [] => none

/-- Prefix test on strings via the underlying character lists. -/
def strStarts (s pre : String) : Bool := pre.data.isPrefixOf s.data

/-- Suffix test on strings via the underlying character lists. -/
def strEnds (s suf : String) : Bool := suf.data.reverse.isPrefixOf s.data.reverse

/-- Drop the first n characters of a string. -/
def strDrop (s : String) (n : Nat) : String := String.mk (s.data.drop n)

/-- Drop the last n characters of a string. -/
def strDropRight (s : String) (n : Nat) : String :=
  String.mk (s.data.take (s.data.length - n))

/-- Minimal model of the WHATWG URL parser for scheme://host/path
URLs as returned by the pull-request API. -/
def parseUrl (s : String) : Option UrlParts :=
  match splitSchemeAux s.data with
  | none => none
  | some (sch, rest) =>
      if sch = [] then none
      else
        let host := String.mk (rest.takeWhile (fun c => c ≠ '/'))
        let path := String.mk (rest.dropWhile (fun c => c ≠ '/'))
        let path := if path = "" then "/" else path
        if host = "" then none else some ⟨String.mk sch, host, path⟩

/-- hostname.replace of the leading api. marker (main.ts line 743). -/
def stripApiHost (h : String) : String :=
  if strStarts h "api." then strDrop h 4 else h

/-- pathname.replace of the leading /repos/ segment (main.ts line 745). -/
def stripReposPath (p : String) : String :=
  if strStarts p "/repos/" then "/" ++ strDrop p 7 else p

/-- pathname.replace of a trailing /pulls/<digits> by /pull/<digits>
(main.ts line 746): the pathname ends in /pulls/ followed by a
nonempty run of digits reaching the end. -/
def pullsToPull (p : String) : String :=
  let ds := (p.data.reverse.takeWhile Char.isDigit).reverse
  let pre := String.mk (p.data.take (p.data.length - ds.length))
  if ds ≠ [] && strEnds pre "/pulls/" then
    strDropRight pre 7 ++ "/pull/" ++ String.mk ds
  else p

/-- The public-URL rewriting of makePR (main.ts lines 742-749): parse
the API URL, strip the api. host marker and the /repos/ segment, remap
the /pulls/<n> tail, and serialize back.  An unparsable URL throws. -/
def publicPrUrl (url : String) : Except String String :=
  match parseUrl url with
  | none => .error "Invalid URL"
  | some u =>
      .ok (u.scheme ++ "://" ++ stripApiHost u.host ++ pullsToPull (stripReposPath u.pathname))

/-- Pull-request options (inputs.pr in schema.ts). -/
structure PrOpts where
  title : String
  label : Option String := none
  draft : Bool := false
  modifiable : Bool := true
  template : Option String := none
  templateFile : Option String := none
  mergeStrategy : String := "squash"
  releaseNotes : Bool := false
  metaComment : Bool := true
deriving DecidableEq, Repr

/-- Name and path of a crate as exposed to templates. -/
structure CrateNP where
  name : String
  path : String
deriving DecidableEq, Repr

/-- The version triple exposed to templates. -/
structure VersionTriple where
  previous : String
  actual : String
  desired : String
deriving DecidableEq, Repr

/-- The template variable bag built by makePR (interface TemplateVars
in main.ts).  The crate field is crates[0], which in JavaScript is
undefined for an empty list; hence an Option. -/
structure TemplateVars where
  pr : PrOpts
  crate : Option CrateNP
  crates : List CrateNP
  version : VersionTriple
  branchName : String
  title : Option String := none
deriving DecidableEq, Repr

/-- The validated action inputs (schema.ts).  baseBranch is a string
input that may be empty (unset). -/
structure Inputs where
  githubToken : String
  baseBranch : String
  version : String
  crate : CrateArgs
  git : GitOpts
  checkSemver : Bool
  checkPackage : Bool
  pr : PrOpts
deriving DecidableEq, Repr

/-- Observable events of a run: external commands executed (with the
optional working directory passed to the runner), action outputs set,
repository API calls and file reads. -/
inductive Event where
  | exec (program : String) (args : List String) (cwd : Option String)
  | output (key value : String)
  | getDefBranch
  | readFile (path : String)
  | createPR (vars : TemplateVars) (title body head base : String)
deriving DecidableEq, Repr

/-- The external world: exit codes and standard output of commands,
the parsed workspace snapshots before and after the release tool ran,
the parsed workspace root, the repository default branch, file
contents, the template renderer and the pull-request API response. -/
structure Env where
  execExit : String → List String → Nat
  stdoutOf : String → List String → String
  realpath : String → String
  pkgsBefore : List Crate
  pkgsAfter : List Crate
  workspaceRoot : String
  defaultBranch : String
  defaultBranchOk : Bool
  readFileRes : String → Except String String
  dirname : String
  render : String → TemplateVars → String
  prUrl : String
  prCreateOk : Bool

/-- Writer-style computation: the recorded event trace together with
an Except result.  A failure keeps the events emitted so far. -/
structure M (α : Type) where
  events : List Event
  result : Except String α

namespace M

def pur (a : α) : M α := ⟨[], .ok a⟩

def bind (x : M α) (f : α → M β) : M β :=
  match x.result with
  | .ok a =>
      let y := f a
      ⟨x.events ++ y.events, y.result⟩
  | .error e => ⟨x.events, .error e⟩

def emit (e : Event) : M Unit := ⟨[e], .ok ()⟩

def fail (msg : String) : M α := ⟨[], .error msg⟩

def ofExcept (r : Except String α) : M α := ⟨[], r⟩

/-- try/catch: run the handler on failure, keeping already-emitted
events (the commands did run). -/
def tryCatch (x : M α) (h : String → M α) : M α :=
  match x.result with
  | .ok _ => x
  | .error e =>
      let y := h e
      ⟨x.events ++ y.events, y.result⟩

instance : Monad M where
  pure := pur
  bind := bind

@[simp] theorem bind_def (x : M α) (f : α → M β) : (x >>= f) = M.bind x f := rfl
@[simp] theorem pure_def (a : α) : (pure a : M α) = M.pur a := rfl
@[simp] theorem events_pur (a : α) : (pur a).events = [] := rfl
@[simp] theorem result_pur (a : α) : (pur a).result = .ok a := rfl
@[simp] theorem events_emit (e : Event) : (emit e).events = [e] := rfl
@[simp] theorem result_emit (e : Event) : (emit e).result = .ok () := rfl
@[simp] theorem events_fail (msg : String) : (fail msg : M α).events = [] := rfl
@[simp] theorem result_fail (msg : String) : (fail msg : M α).result = .error msg := rfl
@[simp] theorem events_ofExcept (r : Except String α) : (ofExcept r).events = [] := rfl
@[simp] theorem result_ofExcept (r : Except String α) : (ofExcept r).result = r := rfl

@[simp] theorem events_bind (x : M α) (f : α → M β) :
    (bind x f).events = x.events ++
      (match x.result with
       | .ok a => (f a).events
       | .error _ => []) := by
  unfold bind
  cases x.result <;> simp

@[simp] theorem result_bind (x : M α) (f : α → M β) :
    (bind x f).result =
      (match x.result with
       | .ok a => (f a).result
       | .error e => .error e) := by
  unfold bind
  cases x.result <;> simp

@[simp] theorem events_tryCatch (x : M α) (h : String → M α) :
    (tryCatch x h).events = x.events ++
      (match x.result with
       | .ok _ => []
       | .error e => (h e).events) := by
  unfold tryCatch
  cases x.result <;> simp

@[simp] theorem result_tryCatch (x : M α) (h : String → M α) :
    (tryCatch x h).result =
      (match x.result with
       | .ok a => .ok a
       | .error e => (h e).result) := by
  unfold tryCatch
  cases hx : x.result <;> simp [hx]

end M

/-- execAndSucceed (main.ts lines 787-795): run the command, then
throw if the exit code is nonzero. -/
def execAndSucceed (env : Env) (program : String) (args : List String)
    (cwd : Option String := none) : M Unit := do
  M.emit (.exec program args cwd)
  let exit := env.execExit program args
  if exit != 0 then M.fail (program ++ " exited with code " ++ toString exit)
  else pure ()

/-- execWithOutput (main.ts lines 809-818): run the command, throw on
nonzero exit, otherwise return its standard output. -/
def execWithOutput (env : Env) (program : String) (args : List String) : M String := do
  M.emit (.exec program args none)
  let exitCode := env.execExit program args
  if exitCode != 0 then M.fail (program ++ " exited with code " ++ toString exitCode)
  else pure (env.stdoutOf program args)

/-- toolExists (main.ts lines 797-807): probe the tool with --help;
any failure (nonzero exit or thrown error) yields false, never an
exception. -/
def toolExists (env : Env) (name : String) : M Bool := do
  M.emit (.exec name ["--help"] none)
  pure (env.execExit name ["--help"] == 0)

/-- installToolIfNotExists (main.ts lines 512-525): probe the tool;
if absent, install with cargo-binstall when available, else with
cargo install. -/
def installToolIfNotExists (env : Env) (tool : String) : M Unit := do
  let present ← toolExists env tool
  if !present then do
    let binstall ← toolExists env "cargo-binstall"
    if binstall then execAndSucceed env "cargo" ["binstall", "--no-confirm", tool]
    else execAndSucceed env "cargo" ["install", tool]
  else pure ()

/-- pkgid (main.ts lines 832-893): ensure cargo-workspaces, run the
listing command, then select.  The parsed JSON snapshot produced by
the listing is supplied as the pkgs parameter (the parse itself has
no logic beyond field renaming). -/
def pkgid (env : Env) (crate : CrateArgs) (pkgs : List Crate) : M (List Crate) := do
  installToolIfNotExists env "cargo-workspaces"
  let _ ← execWithOutput env "cargo" ["workspaces", "list", "--json"]
  M.ofExcept (pkgidSelect env.realpath crate pkgs)

/-- findCrates (main.ts lines 480-510): dispatch on which selector
fields are truthy, forwarding to pkgid against the pre-release
snapshot (the catch blocks only log and rethrow). -/
def findCrates (env : Env) (c : CrateArgs) : M (List Crate) :=
  if !(jsTruthy c.name) && !(jsTruthy c.path) then
    pkgid env { releaseAll := c.releaseAll } env.pkgsBefore
  else if jsTruthy c.name && !(jsTruthy c.path) then
    pkgid env { name := c.name } env.pkgsBefore
  else if !(jsTruthy c.name) && jsTruthy c.path then
    pkgid env { path := c.path } env.pkgsBefore
  else
    pkgid env { name := c.name, path := c.path } env.pkgsBefore

/-- setGithubUser (main.ts lines 418-429). -/
def setGithubUser (env : Env) (git : GitOpts) : M Unit := do
  execAndSucceed env "git" ["config", "user.name", git.name]
  execAndSucceed env "git" ["config", "user.email", git.email]

/-- unshallowGit (main.ts lines 431-434). -/
def unshallowGit (env : Env) : M Unit :=
  execAndSucceed env "git" ["fetch", "--unshallow"]

/-- fetchGitTags (main.ts lines 436-439). -/
def fetchGitTags (env : Env) : M Unit :=
  execAndSucceed env "git" ["fetch", "--tags"]

/-- getDefaultBranch (main.ts lines 441-447): repository API call. -/
def getDefaultBranch (env : Env) : M String := do
  M.emit .getDefBranch
  if env.defaultBranchOk then pure env.defaultBranch else M.fail "request failed"

/-- makeBranch (main.ts lines 458-461). -/
def makeBranch (env : Env) (branchName : String) : M Unit :=
  execAndSucceed env "git" ["switch", "-c", branchName]

/-- renameBranch (main.ts lines 463-466): rename the current branch
in place. -/
def renameBranch (env : Env) (branchName : String) : M Unit :=
  execAndSucceed env "git" ["branch", "-M", branchName]

/-- pushBranch (main.ts lines 671-673). -/
def pushBranch (env : Env) (branchName : String) : M Unit :=
  execAndSucceed env "git" ["push", "origin", branchName]

/-- The selector used by runCargoRelease to re-resolve after the tool
ran (main.ts lines 620-623): name+path of the single selected crate,
or release-all when several were selected. -/
def reResolveArgs (crates : List Crate) : CrateArgs :=
  match crates with
  | [c] => { name := some c.name, path := some c.path }
  | _ => { releaseAll := true }

/-- The working directory of the release tool (main.ts line 540): the
path of the single selected crate, or the workspace root. -/
def cwdOf (env : Env) (crates : List Crate) : String :=
  match crates with
  | [c] => c.path
  | _ => env.workspaceRoot

/-- runCargoRelease (main.ts lines 527-635): ensure the tool, read
the workspace root, detect the tool version, run either the newer
multi-subcommand flow (changes preview failure swallowed) or the
older single-command flow, re-resolve, compare versions and report
the version output. -/
def runCargoRelease (env : Env) (crates : List Crate) (version branchName : String) :
    M String := do
  installToolIfNotExists env "cargo-release"
  let _ ← execWithOutput env "cargo" ["metadata", "--format-version=1"]
  let cwd := cwdOf env crates
  let verOut ← execWithOutput env "cargo" ["release", "--version"]
  let crVersion := crVersionOf verOut
  (if (match crVersion with | some v => crThreshold v | none => false) then do
    M.tryCatch (execAndSucceed env "cargo" ["release", "changes"] (some cwd))
      (fun _ => pure ())
    execAndSucceed env "cargo"
      ["release", "version", version, "--execute", "--verbose", "--no-confirm",
        "--allow-branch", branchName] (some cwd)
    execAndSucceed env "cargo" ["check"] (some cwd)
    execAndSucceed env "cargo"
      ["release", "replace", "--execute", "--verbose", "--no-confirm"] (some cwd)
    execAndSucceed env "cargo"
      ["release", "hook", "--execute", "--verbose", "--no-confirm"] (some cwd)
    execAndSucceed env "cargo"
      ["release", "commit", "--execute", "--verbose", "--no-confirm"] (some cwd)
  else
    execAndSucceed env "cargo"
      ["release", "--execute", "--no-push", "--no-tag", "--no-publish", "--no-confirm",
        "--verbose", "--allow-branch", branchName, version] (some cwd))
  let newCrates ← pkgid env (reResolveArgs crates) env.pkgsAfter
  let newVersion ← (match newCrates.head? with
    | some c => M.pur c.version
    | none => M.fail "TypeError: newCrates[0] is undefined")
  match crates.head? with
  | none => M.fail "TypeError: crates[0] is undefined"
  | some c0 =>
    if newVersion == c0.version then
      M.fail "New and old versions are identical, not proceeding"
    else do
      M.emit (.output "version" newVersion)
      M.pur newVersion

/-- runSemverChecks (main.ts lines 637-669). -/
def runSemverChecks (env : Env) (crate : Crate) : M Unit := do
  let present ← toolExists env "cargo-semver-checks"
  (if !present then do
    let binstall ← toolExists env "cargo-binstall"
    if binstall then
      execAndSucceed env "cargo" ["binstall", "--no-confirm", "cargo-semver-checks"]
    else execAndSucceed env "cargo" ["install", "cargo-semver-checks"]
  else pure ())
  execAndSucceed env "cargo"
    ["semver-checks", "check-release", "--package", crate.name, "--verbose"]
    (some crate.path)

/-- The for-of loop of main over semver checks (main.ts lines 379-383). -/
def runSemverChecksAll (env : Env) : List Crate → M Unit
  | [] => pure ()
  | c :: rest => do
      runSemverChecks env c
      runSemverChecksAll env rest

/-- The for-of loop of main over publish dry-runs (main.ts lines 385-394). -/
def checkPackageAll (env : Env) : List Crate → M Unit
  | [] => pure ()
  | c :: rest => do
      execAndSucceed env "cargo" ["publish", "--dry-run", "-p", c.name]
      checkPackageAll env rest

/-- The branch core token (main.ts lines 368-369): the single
selected crate name, or the literal all, with a crate fallback for
the impossible undefined case. -/
def branchCoreOf (crates : List Crate) : String :=
  if crates.length == 1 then ((crates.head?).map Crate.name).getD "crate" else "all"

/-- makePR (main.ts lines 675-750): build the template variable bag,
render title and body (reading template files as configured), create
the pull request and report the rewritten public URL. -/
def makePR (env : Env) (inp : Inputs) (crateDetails : List Crate)
    (baseBranch branchName newVersion : String) : M Unit :=
  match crateDetails.head? with
  | none => M.fail "TypeError: crateDetails[0] is undefined"
  | some cd0 => do
    let pr := inp.pr
    let crates := crateDetails.map (fun c => CrateNP.mk c.name c.path)
    let vars : TemplateVars :=
      { pr := pr, crate := crates.head?, crates := crates,
        version := ⟨cd0.version, newVersion, inp.version⟩,
        branchName := branchName, title := none }
    let title := env.render pr.title vars
    let vars := { vars with title := some title }
    let template1 ← (if jsTruthy pr.templateFile then do
        M.emit (.readFile (pr.templateFile.getD ""))
        let t ← M.ofExcept (env.readFileRes (pr.templateFile.getD ""))
        M.pur (some t)
      else M.pur pr.template)
    let template2 ← (if (match template1 with
        | none => true
        | some t => t.trim.length == 0) then do
        M.emit (.readFile (env.dirname ++ "/default-template.ejs"))
        M.ofExcept (env.readFileRes (env.dirname ++ "/default-template.ejs"))
      else M.pur (template1.getD ""))
    let body := env.render template2 vars
    M.emit (.createPR vars title body branchName baseBranch)
    if env.prCreateOk then do
      let publicUrl ← M.ofExcept (publicPrUrl env.prUrl)
      M.emit (.output "pr-url" publicUrl)
    else M.fail "request failed"

/-- The orchestrator (the async main of main.ts, lines 354-416):
resolve crates, set git identity, prepare history, compute the base
branch and initial branch name, create the branch, run the release
tool, run optional checks, rename the branch when the actual version
differs from the desired one, report the branch, push and open the
pull request.  The surrounding try/catch reports the Except error
through setFailed. -/
def mainModel (env : Env) (inp : Inputs) : M Unit := do
  let crates ← findCrates env inp.crate
  setGithubUser env inp.git
  unshallowGit env
  fetchGitTags env
  let baseBranch ← (if !inp.baseBranch.isEmpty then pure inp.baseBranch
    else getDefaultBranch env)
  let branchCore := branchCoreOf crates
  let branchName := makeBranchName inp.version (some branchCore) inp.git
  makeBranch env branchName
  let newVersion ← runCargoRelease env crates inp.version branchName
  (if inp.checkSemver then runSemverChecksAll env crates else pure ())
  (if inp.checkPackage then checkPackageAll env crates else pure ())
  let branchName2 ← (if inp.version != newVersion then do
      let bn := makeBranchName newVersion (some branchCore) inp.git
      renameBranch env bn
      M.pur bn
    else M.pur branchName)
  M.emit (.output "pr-branch" branchName2)
  pushBranch env branchName2
  makePR env inp crates baseBranch branchName2 newVersion


/-- Push events: a git invocation whose first argument is push. -/
def isPushEvent : Event → Bool
  | .exec p (a :: _) _ => p == "git" && a == "push"
  | _ => false

/-- Pull-request creation events. -/
def isCreatePREvent : Event → Bool
  | .createPR _ _ _ _ _ => true
  | _ => false

/-- Branch rename events: git branch -M. -/
def isRenameEvent : Event → Bool
  | .exec p (a :: _) _ => p == "git" && a == "branch"
  | _ => false

/-- Branch creation events: git switch -c. -/
def isSwitchEvent : Event → Bool
  | .exec p (a :: _) _ => p == "git" && a == "switch"
  | _ => false

/-- Events reporting the pr-branch output. -/
def isPrBranchOutput : Event → Bool
  | .output k _ => k == "pr-branch"
  | _ => false

/-- Events reporting the version output. -/
def isVersionOutput : Event → Bool
  | .output k _ => k == "version"
  | _ => false

/-- The branch name the orchestrator finally pushes and reports: the
name recomputed from the actual version when it differs from the
desired one, else the initial name. -/
def finalBranch (inp : Inputs) (crates : List Crate) (newVersion : String) :
    String :=
  if inp.version != newVersion then
    makeBranchName newVersion (some (branchCoreOf crates)) inp.git
  else
    makeBranchName inp.version (some (branchCoreOf crates)) inp.git

/-- Events that none of the quiet pipeline stages may emit: pushes,
pull-request creations, pr-branch outputs, branch renames and branch
creations. -/
def tameEv (e : Event) : Prop :=
  isPushEvent e = false ∧ isCreatePREvent e = false ∧ isPrBranchOutput e = false ∧
    isRenameEvent e = false ∧ isSwitchEvent e = false

/-- A concrete cooperating environment for witnesses: every command
succeeds, the workspace holds one crate at version 1.2.3 before the
release and 1.3.0 after it, and the release tool reports version
0.25.10 (new style). -/
def cEnv : Env where
  execExit := fun _ _ => 0
  stdoutOf := fun _ args =>
    if args = ["release", "--version"] then "cargo-release 0.25.10" else ""
  realpath := id
  pkgsBefore := [⟨"alpha", "/ws/alpha", "1.2.3"⟩]
  pkgsAfter := [⟨"alpha", "/ws/alpha", "1.3.0"⟩]
  workspaceRoot := "/ws"
  defaultBranch := "main"
  defaultBranchOk := true
  readFileRes := fun _ => .ok "body"
  dirname := "/action"
  render := fun t _ => t
  prUrl := "https://api.github.com/repos/acme/widget/pulls/7"
  prCreateOk := true

/-- Variant of cEnv in which the release tool silently no-ops: the
post-release snapshot equals the pre-release one. -/
def cEnvNoop : Env :=
  { cEnv with pkgsAfter := [⟨"alpha", "/ws/alpha", "1.2.3"⟩] }

/-- Concrete validated inputs for witnesses. -/
def cInp : Inputs where
  githubToken := "tok"
  baseBranch := ""
  version := "minor"
  crate := {}
  git := ⟨"bot", "bot@example.com", "release", "/"⟩
  checkSemver := false
  checkPackage := false
  pr := { title := "release title" }

/-! ### Resolver lemmas and claims -/

theorem jsTruthy_some_of_ne (v : String) (h : v ≠ "") : jsTruthy (some v) = true := by
  simp [jsTruthy, h]

/-- Behavior of the release-all loop once a nonempty first-seen
version is fixed: the first crate diverging from it aborts, otherwise
all remaining crates are appended. -/
theorem versionLoop_some (v : String) (hv : v ≠ "") :
    ∀ (rest acc : List Crate),
      versionLoop rest (some v) acc =
        (match rest.find? (fun p => p.version != v) with
         | none =>
             if (acc ++ rest).length == 0 then .error "no good crates found"
             else .ok (acc ++ rest)
         | some d => .error (mismatchMsg d v)) := by
  intro rest
  induction rest with
  | nil => intro acc; simp [versionLoop]
  | cons pkg rest ih =>
      intro acc
      have htr : jsTruthy (some v) = true := jsTruthy_some_of_ne v hv
      by_cases hpv : pkg.version = v
      · rw [versionLoop, htr]
        rw [List.find?_cons_of_neg _ (by simp [hpv])]
        rw [if_neg (by simp)]
        rw [if_neg (by simp [hpv])]
        rw [ih (acc ++ [pkg])]
        simp
      · rw [versionLoop, htr]
        rw [List.find?_cons_of_pos _ (by simp [hpv])]
        rw [if_neg (by simp)]
        rw [if_pos (by simp [hpv])]
        simp

/-- Claim C1: for every workspace snapshot with more than one package
(whose version strings are, per the data-model invariant, valid
semantic versions and hence nonempty) and a selector with neither
name nor path but releaseAll set, resolution succeeds returning all
packages exactly when every version string equals the first-seen one,
and otherwise fails with the mismatch error naming the first
divergent package, its version and the first-seen version. -/
theorem resolver_release_all_version_check
    (realpath : String → String) (sel : CrateArgs) (p0 : Crate) (rest : List Crate)
    (hname : jsTruthy sel.name = false) (hpath : jsTruthy sel.path = false)
    (hall : sel.releaseAll = true) (hlen : rest ≠ [])
    (hv : ∀ p ∈ p0 :: rest, p.version ≠ "") :
    pkgidSelect realpath sel (p0 :: rest) =
      (match (p0 :: rest).find? (fun p => p.version != p0.version) with
       | none => .ok (p0 :: rest)
       | some d => .error (mismatchMsg d p0.version)) ∧
    (pkgidSelect realpath sel (p0 :: rest) = .ok (p0 :: rest) ↔
      ∀ p ∈ p0 :: rest, p.version = p0.version) := by
  have hv0 : p0.version ≠ "" := hv p0 (by simp)
  have hlen2 : ((p0 :: rest).length == 1) = false := by
    cases rest with
    | nil => exact absurd rfl hlen
    | cons b l => simp
  have heq : pkgidSelect realpath sel (p0 :: rest) =
      (match (p0 :: rest).find? (fun p => p.version != p0.version) with
       | none => .ok (p0 :: rest)
       | some d => .error (mismatchMsg d p0.version)) := by
    rw [pkgidSelect, hname, hpath, hall]
    rw [if_neg (by simp)]
    rw [if_neg (by simp [hlen])]
    rw [if_neg (by simp)]
    rw [versionLoop]
    rw [if_pos (by simp [jsTruthy])]
    rw [versionLoop_some p0.version hv0 rest ([] ++ [p0])]
    rw [List.find?_cons_of_neg _ (by simp)]
    cases hfind : rest.find? (fun p => p.version != p0.version) <;> simp [hfind]
  refine ⟨heq, ?_⟩
  rw [heq]
  cases hfind : (p0 :: rest).find? (fun p => p.version != p0.version) with
  | none =>
      simp only [List.find?_eq_none] at hfind
      constructor
      · intro _ p hp
        have := hfind p hp
        simpa using this
      · intro _
        rfl
  | some d =>
      have hd := List.find?_some hfind
      have hdmem := List.mem_of_find?_eq_some hfind
      simp only [bne_iff_ne, ne_eq] at hd
      constructor
      · intro h
        exact absurd h (by simp)
      · intro h
        exact absurd (h d hdmem) hd

/-- Witness for C1 at a concrete diverging workspace. -/
theorem resolver_release_all_version_check_w :
    pkgidSelect id { name := none, path := none, releaseAll := true }
        [⟨"aaa", "pa", "1.0.0"⟩, ⟨"bbb", "pb", "2.0.0"⟩] =
      .error "multiple crates with different versions: crate=bbb version=2.0.0 expected=1.0.0" := by
  have h := resolver_release_all_version_check id
    { name := none, path := none, releaseAll := true }
    ⟨"aaa", "pa", "1.0.0"⟩ [⟨"bbb", "pb", "2.0.0"⟩]
    rfl rfl rfl (by simp) (by decide)
  exact h.1.trans (by decide)

/-- Claim C2: with a truthy name and/or path selector, resolution is
the first snapshot entry matching the per-entry OR of the two
constraints, as a single-element selection, independent of
releaseAll, and the absence of a match is the not-found error. -/
theorem resolver_name_path_scan
    (realpath : String → String) (crate : CrateArgs) (pkgs : List Crate) (b : Bool)
    (hsel : (jsTruthy crate.name || jsTruthy crate.path) = true) :
    pkgidSelect realpath crate pkgs =
      (match pkgs.find? (crateMatches crate.name
          (if jsTruthy crate.path then crate.path.map realpath else none)) with
       | some pkg => .ok [pkg]
       | none => .error "no matching crate found") ∧
    pkgidSelect realpath { crate with releaseAll := b } pkgs =
      pkgidSelect realpath crate pkgs ∧
    (∀ l, pkgidSelect realpath crate pkgs = .ok l → l.length = 1) := by
  have heq : ∀ (c : CrateArgs), c.name = crate.name → c.path = crate.path →
      pkgidSelect realpath c pkgs =
        (match pkgs.find? (crateMatches crate.name
            (if jsTruthy crate.path then crate.path.map realpath else none)) with
         | some pkg => .ok [pkg]
         | none => .error "no matching crate found") := by
    intro c hn hp
    rw [pkgidSelect, hn, hp, if_pos hsel]
  refine ⟨heq crate rfl rfl,
    (heq { crate with releaseAll := b } rfl rfl).trans (heq crate rfl rfl).symm, ?_⟩
  intro l hl
  rw [heq crate rfl rfl] at hl
  cases hfind : pkgs.find? (crateMatches crate.name
      (if jsTruthy crate.path then crate.path.map realpath else none)) with
  | none => rw [hfind] at hl; exact absurd hl (by simp)
  | some pkg =>
      rw [hfind] at hl
      simp only [Except.ok.injEq] at hl
      rw [← hl]
      rfl

/-- Witness for C2: a name-only selector picks the entry with that
name even when another entry precedes it. -/
theorem resolver_name_path_scan_w :
    pkgidSelect id { name := some "bbb" }
        [⟨"aaa", "pa", "1.0.0"⟩, ⟨"bbb", "pb", "2.0.0"⟩] =
      .ok [⟨"bbb", "pb", "2.0.0"⟩] := by
  have h := resolver_name_path_scan id { name := some "bbb" }
    [⟨"aaa", "pa", "1.0.0"⟩, ⟨"bbb", "pb", "2.0.0"⟩] true rfl
  exact h.1.trans (by decide)

/-- Counterexample for C8 as stated: with several crates, no selector
and releaseAll unset, the error carries a fixed message that does not
name the discovered packages. -/
theorem resolver_config_error_cex :
    pkgidSelect id { name := none, path := none, releaseAll := false }
        [⟨"zzz1", "p1", "1.0.0"⟩, ⟨"zzz2", "p2", "1.0.0"⟩] =
      .error "multiple crates in the workspace, but crate-release-all is false" ∧
    ¬ ("zzz1".data <:+:
        "multiple crates in the workspace, but crate-release-all is false".data) ∧
    ¬ ("zzz2".data <:+:
        "multiple crates in the workspace, but crate-release-all is false".data) := by
  refine ⟨by decide, by decide, by decide⟩

/-- Claim C8 (amended): with more than one package, no truthy name or
path and releaseAll unset, resolution fails with the fixed
configuration-error message (which does not list the packages). -/
theorem resolver_requires_release_all
    (realpath : String → String) (sel : CrateArgs) (pkgs : List Crate)
    (hname : jsTruthy sel.name = false) (hpath : jsTruthy sel.path = false)
    (hall : sel.releaseAll = false) (hlen : 1 < pkgs.length) :
    pkgidSelect realpath sel pkgs =
      .error "multiple crates in the workspace, but crate-release-all is false" := by
  have hlen2 : (pkgs.length == 1) = false := by
    simp only [beq_eq_false_iff_ne, ne_eq]
    omega
  rw [pkgidSelect, hname, hpath, hall]
  rw [if_neg (by simp)]
  rw [if_neg (by simp [hlen2])]
  rw [if_pos (by simp)]

/-- Witness for C8 (amended). -/
theorem resolver_requires_release_all_w :
    pkgidSelect id { name := none, path := none, releaseAll := false }
        [⟨"aaa", "pa", "1.0.0"⟩, ⟨"bbb", "pb", "2.0.0"⟩] =
      .error "multiple crates in the workspace, but crate-release-all is false" :=
  resolver_requires_release_all id _ _ rfl rfl rfl (by simp)

/-! ### Branch naming (C6) and URL rewriting (C7) -/

/-- Claim C6: branch-name computation is a deterministic function of
prefix, package token, version and separator (the other git options
are irrelevant), omits empty segments, and on the two given inputs
produces exactly the stated names. -/
theorem branch_name_computation :
    makeBranchName "1.2.3" none ⟨"n", "e", "release", "/"⟩ = "release/1.2.3" ∧
    makeBranchName "1.2.3" (some "widget") ⟨"n", "e", "release", "/"⟩ =
      "release/widget/1.2.3" ∧
    (∀ (n e n' e' p s v : String) (c : Option String),
      makeBranchName v c ⟨n, e, p, s⟩ = makeBranchName v c ⟨n', e', p, s⟩) := by
  refine ⟨by decide, by decide, ?_⟩
  intro n e n' e' p s v c
  rfl

/-- Claim C7: the API pull-request URL is rewritten into the public
URL: the api. host marker is removed, the /repos/ path segment is
removed, and the trailing /pulls/<n> becomes /pull/<n>. -/
theorem pr_url_rewrite :
    publicPrUrl "https://api.example.com/repos/acme/widget/pulls/42" =
      .ok "https://example.com/acme/widget/pull/42" ∧
    stripApiHost "api.example.com" = "example.com" ∧
    stripReposPath "/repos/acme/widget/pulls/42" = "/acme/widget/pulls/42" ∧
    pullsToPull "/acme/widget/pulls/42" = "/acme/widget/pull/42" := by
  refine ⟨by decide, by decide, by decide, by decide⟩

/-! ### Trace monad infrastructure -/

theorem M.mem_events_bind {α β : Type} {x : M α} {f : α → M β} {e : Event} :
    e ∈ (M.bind x f).events ↔
      e ∈ x.events ∨ ∃ a, x.result = .ok a ∧ e ∈ (f a).events := by
  rw [M.events_bind, List.mem_append]
  cases hr : x.result with
  | ok a => simp [hr]
  | error m => simp [hr]

theorem events_execAndSucceed (env : Env) (p : String) (args : List String)
    (cwd : Option String) :
    (execAndSucceed env p args cwd).events = [.exec p args cwd] := by
  simp only [execAndSucceed, M.bind_def, M.events_bind, M.events_emit, M.result_emit]
  split <;> simp

theorem result_execAndSucceed (env : Env) (p : String) (args : List String)
    (cwd : Option String) :
    (execAndSucceed env p args cwd).result =
      if env.execExit p args != 0 then
        .error (p ++ " exited with code " ++ toString (env.execExit p args))
      else .ok () := by
  simp only [execAndSucceed, M.bind_def, M.result_bind, M.result_emit]
  split <;> simp_all

theorem events_execWithOutput (env : Env) (p : String) (args : List String) :
    (execWithOutput env p args).events = [.exec p args none] := by
  simp only [execWithOutput, M.bind_def, M.events_bind, M.events_emit, M.result_emit]
  split <;> simp

theorem result_execWithOutput (env : Env) (p : String) (args : List String) :
    (execWithOutput env p args).result =
      if env.execExit p args != 0 then
        .error (p ++ " exited with code " ++ toString (env.execExit p args))
      else .ok (env.stdoutOf p args) := by
  simp only [execWithOutput, M.bind_def, M.result_bind, M.result_emit]
  split <;> simp_all

theorem events_toolExists (env : Env) (name : String) :
    (toolExists env name).events = [.exec name ["--help"] none] := by
  simp [toolExists]

theorem result_toolExists (env : Env) (name : String) :
    (toolExists env name).result = .ok (env.execExit name ["--help"] == 0) := by
  simp [toolExists]

theorem events_getDefaultBranch (env : Env) :
    (getDefaultBranch env).events = [.getDefBranch] := by
  simp only [getDefaultBranch, M.bind_def, M.events_bind, M.events_emit, M.result_emit]
  split <;> simp

theorem result_getDefaultBranch (env : Env) (h : env.defaultBranchOk = true) :
    (getDefaultBranch env).result = .ok env.defaultBranch := by
  simp [getDefaultBranch, h]

/-! ### Event classification of each pipeline stage -/

theorem tameEv_exec_nongit (p : String) (args : List String) (cwd : Option String)
    (h : (p == "git") = false) : tameEv (.exec p args cwd) := by
  unfold tameEv isPushEvent isCreatePREvent isPrBranchOutput isRenameEvent isSwitchEvent
  cases args <;> simp [h]

theorem tameEv_exec_git (a : String) (rest : List String) (cwd : Option String)
    (h1 : (a == "push") = false) (h2 : (a == "branch") = false)
    (h3 : (a == "switch") = false) : tameEv (.exec "git" (a :: rest) cwd) := by
  unfold tameEv isPushEvent isCreatePREvent isPrBranchOutput isRenameEvent isSwitchEvent
  simp [h1, h2, h3]

theorem tameEv_exec_help (p : String) (cwd : Option String) :
    tameEv (.exec p ["--help"] cwd) := by
  unfold tameEv isPushEvent isCreatePREvent isPrBranchOutput isRenameEvent isSwitchEvent
  simp

theorem tameEv_output_version (v : String) : tameEv (.output "version" v) := by
  unfold tameEv isPushEvent isCreatePREvent isPrBranchOutput isRenameEvent isSwitchEvent
  simp

theorem tameEv_getDef : tameEv .getDefBranch := by
  unfold tameEv isPushEvent isCreatePREvent isPrBranchOutput isRenameEvent isSwitchEvent
  simp

theorem tame_installTool (env : Env) (tool : String) :
    ∀ e ∈ (installToolIfNotExists env tool).events, tameEv e := by
  intro e he
  simp only [installToolIfNotExists, M.bind_def, M.mem_events_bind, events_toolExists,
    result_toolExists, events_execAndSucceed, M.events_pur, List.mem_singleton,
    List.not_mem_nil, Except.ok.injEq] at he
  rcases he with rfl | ⟨a, ha, he⟩
  · exact tameEv_exec_help _ _
  · cases a with
    | true => simp at he
    | false =>
        simp only [Bool.not_false, if_true, M.mem_events_bind, events_toolExists,
          result_toolExists, List.mem_singleton, Except.ok.injEq] at he
        rcases he with rfl | ⟨b, hb, he⟩
        · exact tameEv_exec_help _ _
        · cases b <;>
            simp only [if_true, if_false, Bool.false_eq_true, events_execAndSucceed,
              List.mem_singleton, reduceIte] at he <;>
            (subst he; exact tameEv_exec_nongit _ _ _ (by decide))

theorem tame_pkgid (env : Env) (crate : CrateArgs) (pkgs : List Crate) :
    ∀ e ∈ (pkgid env crate pkgs).events, tameEv e := by
  intro e he
  simp only [pkgid, M.bind_def, M.mem_events_bind, events_execWithOutput,
    M.events_ofExcept, List.mem_singleton, List.not_mem_nil] at he
  rcases he with he | ⟨a, _, he⟩
  · exact tame_installTool env _ e he
  · rcases he with he | ⟨b, _, he⟩
    · subst he; exact tameEv_exec_nongit _ _ _ (by decide)
    · simp_all

theorem tame_findCrates (env : Env) (c : CrateArgs) :
    ∀ e ∈ (findCrates env c).events, tameEv e := by
  intro e he
  rw [findCrates] at he
  split at he
  · exact tame_pkgid env _ _ e he
  · split at he
    · exact tame_pkgid env _ _ e he
    · split at he
      · exact tame_pkgid env _ _ e he
      · exact tame_pkgid env _ _ e he

theorem tame_setGithubUser (env : Env) (git : GitOpts) :
    ∀ e ∈ (setGithubUser env git).events, tameEv e := by
  intro e he
  simp only [setGithubUser, M.bind_def, M.mem_events_bind, events_execAndSucceed,
    List.mem_singleton] at he
  rcases he with rfl | ⟨a, _, rfl⟩ <;>
    exact tameEv_exec_git _ _ _ (by decide) (by decide) (by decide)

theorem tame_unshallowGit (env : Env) :
    ∀ e ∈ (unshallowGit env).events, tameEv e := by
  intro e he
  simp only [unshallowGit, events_execAndSucceed, List.mem_singleton] at he
  subst he
  exact tameEv_exec_git _ _ _ (by decide) (by decide) (by decide)

theorem tame_fetchGitTags (env : Env) :
    ∀ e ∈ (fetchGitTags env).events, tameEv e := by
  intro e he
  simp only [fetchGitTags, events_execAndSucceed, List.mem_singleton] at he
  subst he
  exact tameEv_exec_git _ _ _ (by decide) (by decide) (by decide)

theorem tame_getDefaultBranch (env : Env) :
    ∀ e ∈ (getDefaultBranch env).events, tameEv e := by
  intro e he
  simp only [events_getDefaultBranch, List.mem_singleton] at he
  subst he
  exact tameEv_getDef

theorem tame_runSemverChecks (env : Env) (crate : Crate) :
    ∀ e ∈ (runSemverChecks env crate).events, tameEv e := by
  intro e he
  simp only [runSemverChecks, M.bind_def, M.mem_events_bind, events_toolExists,
    result_toolExists, events_execAndSucceed, M.events_pur, List.mem_singleton,
    List.not_mem_nil, Except.ok.injEq] at he
  rcases he with rfl | ⟨a, ha, he⟩
  · exact tameEv_exec_help _ _
  · rcases he with he | ⟨b, hb, rfl⟩
    · cases a with
      | true => simp at he
      | false =>
          simp only [Bool.not_false, if_true, M.mem_events_bind, events_toolExists,
            result_toolExists, List.mem_singleton, Except.ok.injEq] at he
          rcases he with rfl | ⟨b, hb, he⟩
          · exact tameEv_exec_help _ _
          · cases b <;>
              simp only [if_true, if_false, Bool.false_eq_true, events_execAndSucceed,
                List.mem_singleton, reduceIte] at he <;>
              (subst he; exact tameEv_exec_nongit _ _ _ (by decide))
    · exact tameEv_exec_nongit _ _ _ (by decide)

theorem tame_runSemverChecksAll (env : Env) (crates : List Crate) :
    ∀ e ∈ (runSemverChecksAll env crates).events, tameEv e := by
  induction crates with
  | nil => intro e he; simp [runSemverChecksAll] at he
  | cons c rest ih =>
      intro e he
      simp only [runSemverChecksAll, M.bind_def, M.mem_events_bind] at he
      rcases he with he | ⟨a, _, he⟩
      · exact tame_runSemverChecks env c e he
      · exact ih e he

theorem tame_checkPackageAll (env : Env) (crates : List Crate) :
    ∀ e ∈ (checkPackageAll env crates).events, tameEv e := by
  induction crates with
  | nil => intro e he; simp [checkPackageAll] at he
  | cons c rest ih =>
      intro e he
      simp only [checkPackageAll, M.bind_def, M.mem_events_bind, events_execAndSucceed,
        List.mem_singleton] at he
      rcases he with rfl | ⟨a, _, he⟩
      · exact tameEv_exec_nongit _ _ _ (by decide)
      · exact ih e he

theorem tame_runCargoRelease (env : Env) (crates : List Crate) (version branchName : String) :
    ∀ e ∈ (runCargoRelease env crates version branchName).events, tameEv e := by
  intro e he
  simp only [runCargoRelease, M.bind_def, M.mem_events_bind, events_execWithOutput,
    List.mem_singleton] at he
  rcases he with he | ⟨a, _, he⟩
  · exact tame_installTool env _ e he
  · rcases he with rfl | ⟨b, _, he⟩
    · exact tameEv_exec_nongit _ _ _ (by decide)
    · rcases he with rfl | ⟨c, _, he⟩
      · exact tameEv_exec_nongit _ _ _ (by decide)
      · rcases he with he | ⟨d, _, he⟩
        · -- the style-dependent release invocations: all cargo commands
          split at he <;>
            simp only [M.bind_def, M.mem_events_bind, M.events_tryCatch,
              events_execAndSucceed, M.events_pur, List.mem_singleton, List.mem_append,
              List.not_mem_nil, or_false] at he
          · rcases he with (he | he) | ⟨u, _, he⟩
            · subst he; exact tameEv_exec_nongit _ _ _ (by decide)
            · split at he
              · simp at he
              · simp only [M.pure_def, M.events_pur, List.not_mem_nil] at he
            · rcases he with rfl | ⟨u2, _, he⟩
              · exact tameEv_exec_nongit _ _ _ (by decide)
              · rcases he with rfl | ⟨u3, _, he⟩
                · exact tameEv_exec_nongit _ _ _ (by decide)
                · rcases he with rfl | ⟨u4, _, he⟩
                  · exact tameEv_exec_nongit _ _ _ (by decide)
                  · rcases he with rfl | ⟨u5, _, rfl⟩
                    · exact tameEv_exec_nongit _ _ _ (by decide)
                    · exact tameEv_exec_nongit _ _ _ (by decide)
          · subst he; exact tameEv_exec_nongit _ _ _ (by decide)
        · -- re-resolution, head extraction, comparison, version output
          rcases he with he | ⟨nc, _, he⟩
          · exact tame_pkgid env _ _ e he
          · rcases he with he | ⟨nv, _, he⟩
            · split at he <;> simp at he
            · split at he
              · simp at he
              · split at he
                · simp at he
                · simp only [M.bind_def, M.mem_events_bind, M.events_emit,
                    M.events_pur, List.mem_singleton, List.not_mem_nil] at he
                  rcases he with rfl | ⟨_, _, h⟩
                  · exact tameEv_output_version _
                  · simp at h

/-- Event facts for makePR: it never pushes, never reports pr-branch,
never renames nor creates branches. -/
theorem quiet_makePR (env : Env) (inp : Inputs) (crateDetails : List Crate)
    (baseBranch branchName newVersion : String) :
    ∀ e ∈ (makePR env inp crateDetails baseBranch branchName newVersion).events,
      isPushEvent e = false ∧ isPrBranchOutput e = false ∧
        isRenameEvent e = false ∧ isSwitchEvent e = false := by
  intro e he
  rw [makePR] at he
  split at he
  · simp at he
  · simp only [M.bind_def, M.mem_events_bind, M.events_emit, M.events_ofExcept,
      M.pure_def, M.events_pur, List.mem_singleton, List.not_mem_nil,
      M.result_emit, Except.ok.injEq] at he
    rcases he with he | ⟨t1, _, he⟩
    · -- template source events
      split at he
      · simp only [M.bind_def, M.mem_events_bind, M.events_emit, M.events_ofExcept,
          M.pure_def, M.events_pur, List.mem_singleton, List.not_mem_nil,
          M.result_emit] at he
        rcases he with rfl | ⟨_, _, he⟩
        · exact ⟨rfl, rfl, rfl, rfl⟩
        · rcases he with he | ⟨_, _, he⟩ <;> simp at he
      · simp at he
    · rcases he with he | ⟨t2, _, he⟩
      · -- default-template events
        split at he
        · simp only [M.bind_def, M.mem_events_bind, M.events_emit, M.events_ofExcept,
            M.pure_def, M.events_pur, List.mem_singleton, List.not_mem_nil,
            M.result_emit] at he
          rcases he with rfl | ⟨_, _, he⟩
          · exact ⟨rfl, rfl, rfl, rfl⟩
          · simp at he
        · simp at he
      · rcases he with rfl | ⟨_, _, he⟩
        · exact ⟨rfl, rfl, rfl, rfl⟩
        · split at he
          · simp only [M.bind_def, M.mem_events_bind, M.events_emit, M.events_ofExcept,
              M.pure_def, M.events_pur, List.mem_singleton, List.not_mem_nil,
              false_or] at he
            obtain ⟨a, _, rfl⟩ := he
            exact ⟨rfl, by simp [isPrBranchOutput], rfl, rfl⟩
          · simp at he

/-! ### Stage results under a cooperating environment -/

theorem M.result_bind_ok {α β : Type} {x : M α} {f : α → M β} {b : β}
    (h : (M.bind x f).result = .ok b) :
    ∃ a, x.result = .ok a ∧ (f a).result = .ok b := by
  cases hr : x.result with
  | ok a => exact ⟨a, rfl, by simpa [M.result_bind, hr] using h⟩
  | error m => rw [M.result_bind, hr] at h; exact absurd h (by simp)

theorem M.mem_events_bind_right {α β : Type} {x : M α} {f : α → M β} {e : Event} {a : α}
    (ha : x.result = .ok a) (he : e ∈ (f a).events) : e ∈ (M.bind x f).events :=
  M.mem_events_bind.mpr (Or.inr ⟨a, ha, he⟩)

theorem result_installTool (env : Env) (tool : String)
    (hexec : ∀ p a, env.execExit p a = 0) :
    (installToolIfNotExists env tool).result = .ok () := by
  simp [installToolIfNotExists, toolExists, hexec]

theorem result_pkgid (env : Env) (crate : CrateArgs) (pkgs : List Crate)
    (hexec : ∀ p a, env.execExit p a = 0) :
    (pkgid env crate pkgs).result = pkgidSelect env.realpath crate pkgs := by
  simp [pkgid, result_installTool env _ hexec, result_execWithOutput, hexec]

theorem result_setGithubUser (env : Env) (git : GitOpts)
    (hexec : ∀ p a, env.execExit p a = 0) :
    (setGithubUser env git).result = .ok () := by
  simp [setGithubUser, result_execAndSucceed, hexec]

theorem result_unshallowGit (env : Env) (hexec : ∀ p a, env.execExit p a = 0) :
    (unshallowGit env).result = .ok () := by
  simp [unshallowGit, result_execAndSucceed, hexec]

theorem result_fetchGitTags (env : Env) (hexec : ∀ p a, env.execExit p a = 0) :
    (fetchGitTags env).result = .ok () := by
  simp [fetchGitTags, result_execAndSucceed, hexec]

theorem result_makeBranch (env : Env) (b : String)
    (hexec : ∀ p a, env.execExit p a = 0) :
    (makeBranch env b).result = .ok () := by
  simp [makeBranch, result_execAndSucceed, hexec]

theorem result_renameBranch (env : Env) (b : String)
    (hexec : ∀ p a, env.execExit p a = 0) :
    (renameBranch env b).result = .ok () := by
  simp [renameBranch, result_execAndSucceed, hexec]

theorem result_runSemverChecksAll (env : Env) (crates : List Crate)
    (hexec : ∀ p a, env.execExit p a = 0) :
    (runSemverChecksAll env crates).result = .ok () := by
  induction crates with
  | nil => simp [runSemverChecksAll]
  | cons c rest ih =>
      simp [runSemverChecksAll, runSemverChecks, toolExists, result_execAndSucceed,
        hexec, ih]

theorem result_checkPackageAll (env : Env) (crates : List Crate)
    (hexec : ∀ p a, env.execExit p a = 0) :
    (checkPackageAll env crates).result = .ok () := by
  induction crates with
  | nil => simp [checkPackageAll]
  | cons c rest ih =>
      simp [checkPackageAll, result_execAndSucceed, hexec, ih]

/-- The post-release reconciliation result: with every command
succeeding, the outcome of runCargoRelease is determined by the
re-resolution of the post-release snapshot, the head of that
resolution and the head of the pre-release selection alone. -/
theorem result_runCargoRelease (env : Env) (crates : List Crate)
    (version branchName : String) (hexec : ∀ p a, env.execExit p a = 0) :
    (runCargoRelease env crates version branchName).result =
      (match pkgidSelect env.realpath (reResolveArgs crates) env.pkgsAfter with
       | .error e => .error e
       | .ok newCrates =>
         match newCrates.head? with
         | none => .error "TypeError: newCrates[0] is undefined"
         | some nc0 =>
           match crates.head? with
           | none => .error "TypeError: crates[0] is undefined"
           | some c0 =>
             if nc0.version == c0.version then
               .error "New and old versions are identical, not proceeding"
             else .ok nc0.version) := by
  rw [runCargoRelease]
  simp only [M.bind_def, M.result_bind, result_installTool env _ hexec,
    result_execWithOutput, hexec, result_pkgid env _ _ hexec, M.pure_def, M.result_pur,
    bne_self_eq_false, Bool.false_eq_true, if_false]
  split
  · cases hsel : pkgidSelect env.realpath (reResolveArgs crates) env.pkgsAfter with
    | error m => simp [hsel]
    | ok newCrates =>
        simp only [hsel]
        cases hnc : newCrates.head? with
        | none => simp [hnc]
        | some nc0 =>
            simp only [hnc, M.result_pur]
            cases hc : crates.head? with
            | none => simp [hc]
            | some c0 =>
                simp only [hc]
                by_cases hv : nc0.version = c0.version
                · simp [hv]
                · simp [hv]
  · exfalso
    rename_i x e heq
    split at heq <;>
      simp only [M.bind_def, M.result_bind, M.result_tryCatch, result_execAndSucceed,
        hexec, M.pure_def, M.result_pur, bne_self_eq_false, Bool.false_eq_true,
        if_false] at heq <;>
      exact absurd heq (by simp)

/-- Whenever runCargoRelease succeeds with a version, it has emitted
the version output with exactly that value (before returning). -/
theorem version_output_mem (env : Env) (crates : List Crate)
    (version branchName nv : String)
    (h : (runCargoRelease env crates version branchName).result = .ok nv) :
    Event.output "version" nv ∈ (runCargoRelease env crates version branchName).events := by
  rw [runCargoRelease] at h ⊢
  simp only [M.bind_def] at h ⊢
  obtain ⟨a1, h1, h⟩ := M.result_bind_ok h
  obtain ⟨a2, h2, h⟩ := M.result_bind_ok h
  obtain ⟨a3, h3, h⟩ := M.result_bind_ok h
  obtain ⟨a4, h4, h⟩ := M.result_bind_ok h
  obtain ⟨a5, h5, h⟩ := M.result_bind_ok h
  obtain ⟨a6, h6, h⟩ := M.result_bind_ok h
  refine M.mem_events_bind_right h1 ?_
  refine M.mem_events_bind_right h2 ?_
  refine M.mem_events_bind_right h3 ?_
  refine M.mem_events_bind_right h4 ?_
  refine M.mem_events_bind_right h5 ?_
  refine M.mem_events_bind_right h6 ?_
  split at h
  · simp at h
  · rename_i c0 heqc
    split at h
    · simp at h
    · rename_i hne
      have hnv : a6 = nv := by simpa using h
      rw [if_neg hne]
      simp [hnv]

theorem M.events_bind_ok {α β : Type} {x : M α} {f : α → M β} {a : α}
    (h : x.result = .ok a) : (M.bind x f).events = x.events ++ (f a).events := by
  simp [M.events_bind, h]

theorem M.events_bind_err {α β : Type} {x : M α} {f : α → M β} {m : String}
    (h : x.result = .error m) : (M.bind x f).events = x.events := by
  simp [M.events_bind, h]

theorem tame3 {e : Event} (h : tameEv e) :
    isPushEvent e = false ∧ isCreatePREvent e = false ∧ isPrBranchOutput e = false :=
  ⟨h.1, h.2.1, h.2.2.1⟩

theorem events_makeBranch (env : Env) (b : String) :
    (makeBranch env b).events = [.exec "git" ["switch", "-c", b] none] :=
  events_execAndSucceed env "git" ["switch", "-c", b] none

theorem events_renameBranch (env : Env) (b : String) :
    (renameBranch env b).events = [.exec "git" ["branch", "-M", b] none] :=
  events_execAndSucceed env "git" ["branch", "-M", b] none

theorem events_pushBranch (env : Env) (b : String) :
    (pushBranch env b).events = [.exec "git" ["push", "origin", b] none] :=
  events_execAndSucceed env "git" ["push", "origin", b] none

theorem three_switch (b : String) :
    isPushEvent (Event.exec "git" ["switch", "-c", b] none) = false ∧
    isCreatePREvent (Event.exec "git" ["switch", "-c", b] none) = false ∧
    isPrBranchOutput (Event.exec "git" ["switch", "-c", b] none) = false :=
  ⟨rfl, rfl, rfl⟩

theorem three_rename (b : String) :
    isPushEvent (Event.exec "git" ["branch", "-M", b] none) = false ∧
    isCreatePREvent (Event.exec "git" ["branch", "-M", b] none) = false ∧
    isPrBranchOutput (Event.exec "git" ["branch", "-M", b] none) = false :=
  ⟨rfl, rfl, rfl⟩

/-- Decomposition of every orchestrator run: either the run fails
before reporting the pr-branch output (and the trace contains no
push, no pull-request creation and no pr-branch output), or crate
resolution and the release stage succeeded, the pr-branch output and
the push of the final branch name appear in order, everything before
them is push-free, the version output was already emitted, and the
rename/switch events are exactly as dictated by the version
comparison. -/
theorem mainModel_decomp (env : Env) (inp : Inputs) :
    (∀ e ∈ (mainModel env inp).events,
        isPushEvent e = false ∧ isCreatePREvent e = false ∧ isPrBranchOutput e = false) ∨
    ∃ (crates : List Crate) (newVersion : String) (A B : List Event),
      (findCrates env inp.crate).result = Except.ok crates ∧
      (runCargoRelease env crates inp.version
          (makeBranchName inp.version (some (branchCoreOf crates)) inp.git)).result =
        Except.ok newVersion ∧
      (mainModel env inp).events =
        A ++ Event.output "pr-branch" (finalBranch inp crates newVersion) ::
          Event.exec "git" ["push", "origin", finalBranch inp crates newVersion] none :: B ∧
      (∀ e ∈ A, isPushEvent e = false ∧ isCreatePREvent e = false ∧
          isPrBranchOutput e = false) ∧
      (∀ e ∈ B, isPushEvent e = false ∧ isPrBranchOutput e = false ∧
          isRenameEvent e = false ∧ isSwitchEvent e = false) ∧
      Event.output "version" newVersion ∈ A ∧
      (inp.version ≠ newVersion →
        Event.exec "git" ["branch", "-M", finalBranch inp crates newVersion] none ∈ A) ∧
      (∀ e ∈ A, isRenameEvent e = true →
        inp.version ≠ newVersion ∧
          e = Event.exec "git" ["branch", "-M", finalBranch inp crates newVersion] none) ∧
      (∀ e ∈ A, isSwitchEvent e = true →
        e = Event.exec "git" ["switch", "-c",
            makeBranchName inp.version (some (branchCoreOf crates)) inp.git] none) := by
  have hTuser := tame_setGithubUser env inp.git
  have hTunsh := tame_unshallowGit env
  have hTtags := tame_fetchGitTags env
  have hTfind := tame_findCrates env inp.crate
  have hTbb : ∀ e ∈ (if (!inp.baseBranch.isEmpty) = true then (pure inp.baseBranch : M String)
      else getDefaultBranch env).events, tameEv e := by
    split
    · intro e he; simp at he
    · exact tame_getDefaultBranch env
  unfold mainModel
  simp only [M.bind_def]
  cases h1 : (findCrates env inp.crate).result with
  | error m =>
      left
      intro e he
      rw [M.events_bind_err h1] at he
      exact tame3 (hTfind e he)
  | ok crates =>
  rw [M.events_bind_ok h1]
  cases h2 : (setGithubUser env inp.git).result with
  | error m =>
      left
      intro e he
      rw [M.events_bind_err h2] at he
      simp only [List.mem_append] at he
      rcases he with he | he
      · exact tame3 (hTfind e he)
      · exact tame3 (hTuser e he)
  | ok u2 =>
  rw [M.events_bind_ok h2]
  cases h3 : (unshallowGit env).result with
  | error m =>
      left
      intro e he
      rw [M.events_bind_err h3] at he
      simp only [List.mem_append] at he
      rcases he with he | he | he
      · exact tame3 (hTfind e he)
      · exact tame3 (hTuser e he)
      · exact tame3 (hTunsh e he)
  | ok u3 =>
  rw [M.events_bind_ok h3]
  cases h4 : (fetchGitTags env).result with
  | error m =>
      left
      intro e he
      rw [M.events_bind_err h4] at he
      simp only [List.mem_append] at he
      rcases he with he | he | he | he
      · exact tame3 (hTfind e he)
      · exact tame3 (hTuser e he)
      · exact tame3 (hTunsh e he)
      · exact tame3 (hTtags e he)
  | ok u4 =>
  rw [M.events_bind_ok h4]
  cases hBB : (if (!inp.baseBranch.isEmpty) = true then (pure inp.baseBranch : M String)
      else getDefaultBranch env).result with
  | error m =>
      left
      intro e he
      rw [M.events_bind_err hBB] at he
      simp only [List.mem_append] at he
      rcases he with he | he | he | he | he
      · exact tame3 (hTfind e he)
      · exact tame3 (hTuser e he)
      · exact tame3 (hTunsh e he)
      · exact tame3 (hTtags e he)
      · exact tame3 (hTbb e he)
  | ok bb =>
  rw [M.events_bind_ok hBB]
  cases h6 : (makeBranch env
      (makeBranchName inp.version (some (branchCoreOf crates)) inp.git)).result with
  | error m =>
      left
      intro e he
      rw [M.events_bind_err h6] at he
      simp only [List.mem_append, events_makeBranch, List.mem_singleton] at he
      rcases he with he | he | he | he | he | rfl
      · exact tame3 (hTfind e he)
      · exact tame3 (hTuser e he)
      · exact tame3 (hTunsh e he)
      · exact tame3 (hTtags e he)
      · exact tame3 (hTbb e he)
      · exact three_switch _
  | ok u6 =>
  rw [M.events_bind_ok h6]
  have hTrel := tame_runCargoRelease env crates inp.version
    (makeBranchName inp.version (some (branchCoreOf crates)) inp.git)
  cases h7 : (runCargoRelease env crates inp.version
      (makeBranchName inp.version (some (branchCoreOf crates)) inp.git)).result with
  | error m =>
      left
      intro e he
      rw [M.events_bind_err h7] at he
      simp only [List.mem_append, events_makeBranch, List.mem_singleton] at he
      rcases he with he | he | he | he | he | rfl | he
      · exact tame3 (hTfind e he)
      · exact tame3 (hTuser e he)
      · exact tame3 (hTunsh e he)
      · exact tame3 (hTtags e he)
      · exact tame3 (hTbb e he)
      · exact three_switch _
      · exact tame3 (hTrel e he)
  | ok nv =>
  rw [M.events_bind_ok h7]
  have hTsem : ∀ e ∈ (if inp.checkSemver = true then runSemverChecksAll env crates
      else (pure () : M Unit)).events, tameEv e := by
    split
    · exact tame_runSemverChecksAll env crates
    · intro e he; simp at he
  cases hSem : (if inp.checkSemver = true then runSemverChecksAll env crates
      else (pure () : M Unit)).result with
  | error m =>
      left
      intro e he
      rw [M.events_bind_err hSem] at he
      simp only [List.mem_append, events_makeBranch, List.mem_singleton] at he
      rcases he with he | he | he | he | he | rfl | he | he
      · exact tame3 (hTfind e he)
      · exact tame3 (hTuser e he)
      · exact tame3 (hTunsh e he)
      · exact tame3 (hTtags e he)
      · exact tame3 (hTbb e he)
      · exact three_switch _
      · exact tame3 (hTrel e he)
      · exact tame3 (hTsem e he)
  | ok u8 =>
  rw [M.events_bind_ok hSem]
  have hTpkg : ∀ e ∈ (if inp.checkPackage = true then checkPackageAll env crates
      else (pure () : M Unit)).events, tameEv e := by
    split
    · exact tame_checkPackageAll env crates
    · intro e he; simp at he
  cases hPkg : (if inp.checkPackage = true then checkPackageAll env crates
      else (pure () : M Unit)).result with
  | error m =>
      left
      intro e he
      rw [M.events_bind_err hPkg] at he
      simp only [List.mem_append, events_makeBranch, List.mem_singleton] at he
      rcases he with he | he | he | he | he | rfl | he | he | he
      · exact tame3 (hTfind e he)
      · exact tame3 (hTuser e he)
      · exact tame3 (hTunsh e he)
      · exact tame3 (hTtags e he)
      · exact tame3 (hTbb e he)
      · exact three_switch _
      · exact tame3 (hTrel e he)
      · exact tame3 (hTsem e he)
      · exact tame3 (hTpkg e he)
  | ok u9 =>
  rw [M.events_bind_ok hPkg]
  have hRenVal : ∀ v, (if (inp.version != nv) = true then
      M.bind (renameBranch env (makeBranchName nv (some (branchCoreOf crates)) inp.git))
        fun x => M.pur (makeBranchName nv (some (branchCoreOf crates)) inp.git)
    else M.pur (makeBranchName inp.version (some (branchCoreOf crates)) inp.git)).result =
      .ok v → v = finalBranch inp crates nv := by
    intro v hv
    rw [finalBranch]
    by_cases hne : (inp.version != nv) = true
    · rw [if_pos hne] at hv ⊢
      cases hr : (renameBranch env
          (makeBranchName nv (some (branchCoreOf crates)) inp.git)).result with
      | error m => rw [M.result_bind, hr] at hv; exact absurd hv (by simp)
      | ok u => rw [M.result_bind, hr] at hv; simpa using hv.symm
    · rw [if_neg hne] at hv ⊢
      simpa using hv.symm
  have hRen3 : ∀ e ∈ (if (inp.version != nv) = true then
      M.bind (renameBranch env (makeBranchName nv (some (branchCoreOf crates)) inp.git))
        fun x => M.pur (makeBranchName nv (some (branchCoreOf crates)) inp.git)
    else M.pur (makeBranchName inp.version (some (branchCoreOf crates)) inp.git)).events,
      isPushEvent e = false ∧ isCreatePREvent e = false ∧ isPrBranchOutput e = false ∧
        isSwitchEvent e = false := by
    intro e he
    split at he
    · simp only [M.events_bind, events_renameBranch] at he
      rcases List.mem_append.mp he with he | he
      · rw [List.mem_singleton] at he
        subst he
        exact ⟨rfl, rfl, rfl, rfl⟩
      · split at he <;> simp at he
    · simp at he
  have hRenRe : ∀ e ∈ (if (inp.version != nv) = true then
      M.bind (renameBranch env (makeBranchName nv (some (branchCoreOf crates)) inp.git))
        fun x => M.pur (makeBranchName nv (some (branchCoreOf crates)) inp.git)
    else M.pur (makeBranchName inp.version (some (branchCoreOf crates)) inp.git)).events,
      isRenameEvent e = true →
        inp.version ≠ nv ∧
          e = Event.exec "git" ["branch", "-M", finalBranch inp crates nv] none := by
    intro e he hre
    split at he
    · rename_i hne
      simp only [M.events_bind, events_renameBranch] at he
      rcases List.mem_append.mp he with he | he
      · rw [List.mem_singleton] at he
        subst he
        refine ⟨by simpa using hne, ?_⟩
        rw [finalBranch, if_pos hne]
      · split at he <;> simp at he
    · simp at he
  have hRenEv : inp.version ≠ nv →
      Event.exec "git" ["branch", "-M", finalBranch inp crates nv] none ∈
        (if (inp.version != nv) = true then
          M.bind (renameBranch env (makeBranchName nv (some (branchCoreOf crates)) inp.git))
            fun x => M.pur (makeBranchName nv (some (branchCoreOf crates)) inp.git)
        else M.pur (makeBranchName inp.version (some (branchCoreOf crates)) inp.git)).events := by
    intro hne
    have hne2 : (inp.version != nv) = true := by simpa using hne
    rw [if_pos hne2]
    simp only [M.events_bind, events_renameBranch]
    rw [finalBranch, if_pos hne2]
    simp
  cases hRen : (if (inp.version != nv) = true then
      M.bind (renameBranch env (makeBranchName nv (some (branchCoreOf crates)) inp.git))
        fun x => M.pur (makeBranchName nv (some (branchCoreOf crates)) inp.git)
    else M.pur (makeBranchName inp.version (some (branchCoreOf crates)) inp.git)).result with
  | error m =>
      left
      intro e he
      rw [M.events_bind_err hRen] at he
      simp only [List.mem_append, events_makeBranch, List.mem_singleton] at he
      rcases he with he | he | he | he | he | rfl | he | he | he | he
      · exact tame3 (hTfind e he)
      · exact tame3 (hTuser e he)
      · exact tame3 (hTunsh e he)
      · exact tame3 (hTtags e he)
      · exact tame3 (hTbb e he)
      · exact three_switch _
      · exact tame3 (hTrel e he)
      · exact tame3 (hTsem e he)
      · exact tame3 (hTpkg e he)
      · exact ⟨(hRen3 e he).1, (hRen3 e he).2.1, (hRen3 e he).2.2.1⟩
  | ok v2 =>
  have hv2 := hRenVal v2 hRen
  subst hv2
  rw [M.events_bind_ok hRen]
  rw [M.events_bind_ok (M.result_emit (Event.output "pr-branch" (finalBranch inp crates nv)))]
  rw [M.events_bind (pushBranch env (finalBranch inp crates nv)), events_pushBranch]
  right
  refine ⟨crates, nv, ?A, ?B, rfl, h7, ?_, ?_, ?_, ?_, ?_, ?_, ?_⟩
  case A =>
    exact (findCrates env inp.crate).events ++ (setGithubUser env inp.git).events ++
      (unshallowGit env).events ++ (fetchGitTags env).events ++
      (if (!inp.baseBranch.isEmpty) = true then (pure inp.baseBranch : M String)
        else getDefaultBranch env).events ++
      (makeBranch env
        (makeBranchName inp.version (some (branchCoreOf crates)) inp.git)).events ++
      (runCargoRelease env crates inp.version
        (makeBranchName inp.version (some (branchCoreOf crates)) inp.git)).events ++
      (if inp.checkSemver = true then runSemverChecksAll env crates
        else (pure () : M Unit)).events ++
      (if inp.checkPackage = true then checkPackageAll env crates
        else (pure () : M Unit)).events ++
      (if (inp.version != nv) = true then
        M.bind (renameBranch env (makeBranchName nv (some (branchCoreOf crates)) inp.git))
          (fun x => M.pur (makeBranchName nv (some (branchCoreOf crates)) inp.git))
      else M.pur
        (makeBranchName inp.version (some (branchCoreOf crates)) inp.git)).events
  case B =>
    exact (match (pushBranch env (finalBranch inp crates nv)).result with
      | .ok _ => (makePR env inp crates bb (finalBranch inp crates nv) nv).events
      | .error _ => [])
  · -- the events equation
    simp only [List.append_assoc, List.singleton_append, List.cons_append,
      M.events_emit, List.nil_append]
    congr 1
    congr 1
    congr 1
    congr 1
    congr 1
    congr 1
    congr 1
    congr 1
    congr 1
    congr 1
    congr 1
    congr 1
    cases (pushBranch env (finalBranch inp crates nv)).result <;> rfl
  · -- A is push-free, createPR-free, pr-branch-free
    intro e he
    simp only [List.mem_append, events_makeBranch, List.mem_singleton, or_assoc] at he
    rcases he with he | he | he | he | he | rfl | he | he | he | he
    · exact tame3 (hTfind e he)
    · exact tame3 (hTuser e he)
    · exact tame3 (hTunsh e he)
    · exact tame3 (hTtags e he)
    · exact tame3 (hTbb e he)
    · exact three_switch _
    · exact tame3 (hTrel e he)
    · exact tame3 (hTsem e he)
    · exact tame3 (hTpkg e he)
    · exact ⟨(hRen3 e he).1, (hRen3 e he).2.1, (hRen3 e he).2.2.1⟩
  · -- B is quiet
    intro e he
    cases hp : (pushBranch env (finalBranch inp crates nv)).result with
    | ok u =>
        rw [hp] at he
        have h4q := quiet_makePR env inp crates bb (finalBranch inp crates nv) nv e he
        exact h4q
    | error m => rw [hp] at he; simp at he
  · -- version output in A
    have hm := version_output_mem env crates inp.version
      (makeBranchName inp.version (some (branchCoreOf crates)) inp.git) nv h7
    simp only [List.mem_append]
    tauto
  · -- rename event present when versions differ
    intro hne
    have hm := hRenEv hne
    simp only [List.mem_append]
    tauto
  · -- rename events in A are exactly the one rename
    intro e he hre
    simp only [List.mem_append, events_makeBranch, List.mem_singleton, or_assoc] at he
    rcases he with he | he | he | he | he | rfl | he | he | he | he
    · exact absurd hre (by simp [(hTfind e he).2.2.2.1])
    · exact absurd hre (by simp [(hTuser e he).2.2.2.1])
    · exact absurd hre (by simp [(hTunsh e he).2.2.2.1])
    · exact absurd hre (by simp [(hTtags e he).2.2.2.1])
    · exact absurd hre (by simp [(hTbb e he).2.2.2.1])
    · exact absurd hre (by simp [isRenameEvent])
    · exact absurd hre (by simp [(hTrel e he).2.2.2.1])
    · exact absurd hre (by simp [(hTsem e he).2.2.2.1])
    · exact absurd hre (by simp [(hTpkg e he).2.2.2.1])
    · exact hRenRe e he hre
  · -- switch events in A are exactly the branch creation
    intro e he hsw
    simp only [List.mem_append, events_makeBranch, List.mem_singleton, or_assoc] at he
    rcases he with he | he | he | he | he | rfl | he | he | he | he
    · exact absurd hsw (by simp [(hTfind e he).2.2.2.2])
    · exact absurd hsw (by simp [(hTuser e he).2.2.2.2])
    · exact absurd hsw (by simp [(hTunsh e he).2.2.2.2])
    · exact absurd hsw (by simp [(hTtags e he).2.2.2.2])
    · exact absurd hsw (by simp [(hTbb e he).2.2.2.2])
    · rfl
    · exact absurd hsw (by simp [(hTrel e he).2.2.2.2])
    · exact absurd hsw (by simp [(hTsem e he).2.2.2.2])
    · exact absurd hsw (by simp [(hTpkg e he).2.2.2.2])
    · exact absurd hsw (by simp [(hRen3 e he).2.2.2])

/-- If a list splits as prefix/suffix, an element x of the prefix that
is not in A and differs from y forces y (which precedes every
occurrence of x in A ++ y :: C) into the prefix as well. -/
theorem mem_pre_of_split {α : Type} (A : List α) (C pre post : List α) (x y : α)
    (hsplit : A ++ y :: C = pre ++ post) (hx : x ∈ pre) (hxA : x ∉ A) :
    y ∈ pre := by
  induction A generalizing pre with
  | nil =>
      cases pre with
      | nil => simp at hx
      | cons p pre2 =>
          simp only [List.nil_append, List.cons_append, List.cons.injEq] at hsplit
          obtain ⟨rfl, _⟩ := hsplit
          exact List.mem_cons_self _ _
  | cons a A2 ih =>
      cases pre with
      | nil => simp at hx
      | cons p pre2 =>
          simp only [List.cons_append, List.cons.injEq] at hsplit
          obtain ⟨rfl, hs2⟩ := hsplit
          rcases List.mem_cons.mp hx with rfl | hx2
          · exact absurd (List.mem_cons_self _ _) hxA
          · exact List.mem_cons_of_mem _
              (ih pre2 hs2 hx2 (fun hmem => hxA (List.mem_cons_of_mem _ hmem)))

/-- Claim C9: the pr-branch and version outputs are emitted before
the branch is pushed: in every run whose trace reaches the push of a
branch b, any trace prefix containing that push already contains the
pr-branch output with the same b and the version output; in
particular both outputs remain in the trace when the push or the
pull-request creation fails. -/
theorem outputs_precede_push (env : Env) (inp : Inputs) (b : String)
    (pre post : List Event)
    (hsplit : (mainModel env inp).events = pre ++ post)
    (hpush : Event.exec "git" ["push", "origin", b] none ∈ pre) :
    Event.output "pr-branch" b ∈ pre ∧ ∃ v, Event.output "version" v ∈ pre := by
  have hmem : Event.exec "git" ["push", "origin", b] none ∈ (mainModel env inp).events := by
    rw [hsplit]; exact List.mem_append_left _ hpush
  rcases mainModel_decomp env inp with hleft |
    ⟨crates, nv, A, B, hfind, hrel, hev, hA, hB, hvA, hren, hArename, hAswitch⟩
  · have := (hleft _ hmem).1
    simp [isPushEvent] at this
  · rw [hev] at hmem
    have hb : b = finalBranch inp crates nv := by
      rcases List.mem_append.mp hmem with hin | hin
      · exact absurd ((hA _ hin).1) (by simp [isPushEvent])
      · rcases List.mem_cons.mp hin with heq | hin
        · simp at heq
        · rcases List.mem_cons.mp hin with heq | hin
          · simpa using heq
          · exact absurd ((hB _ hin).1) (by simp [isPushEvent])
    subst hb
    have hsplit2 : A ++ Event.output "pr-branch" (finalBranch inp crates nv) ::
        (Event.exec "git" ["push", "origin", finalBranch inp crates nv] none :: B) =
        pre ++ post := by
      rw [← hev, ← hsplit]
    have hxA : Event.exec "git" ["push", "origin", finalBranch inp crates nv] none ∉ A := by
      intro hinA
      exact absurd ((hA _ hinA).1) (by simp [isPushEvent])
    constructor
    · exact mem_pre_of_split A _ pre post _ _ hsplit2 hpush hxA
    · obtain ⟨A1, A2, rfl⟩ := List.append_of_mem hvA
      refine ⟨nv, ?_⟩
      have hsplit3 : A1 ++ Event.output "version" nv ::
          (A2 ++ Event.output "pr-branch" (finalBranch inp crates nv) ::
            (Event.exec "git" ["push", "origin", finalBranch inp crates nv] none :: B)) =
          pre ++ post := by
        rw [← hsplit2]
        simp [List.append_assoc]
      have hxA1 : Event.exec "git" ["push", "origin", finalBranch inp crates nv] none ∉ A1 := by
        intro hinA
        exact hxA (List.mem_append_left _ hinA)
      exact mem_pre_of_split A1 _ pre post _ _ hsplit3 hpush hxA1

/-- Witness for C9 at the concrete environment: the whole trace, as a
prefix of itself, contains the push and therefore both outputs. -/
theorem outputs_precede_push_w :
    Event.output "pr-branch" "release/alpha/1.3.0" ∈ (mainModel cEnv cInp).events ∧
    ∃ v, Event.output "version" v ∈ (mainModel cEnv cInp).events := by
  have h := outputs_precede_push cEnv cInp "release/alpha/1.3.0"
    (mainModel cEnv cInp).events [] (by simp) (by decide)
  exact h

/-- Claim C3: whenever resolution and the release stage succeeded and
the run pushed some branch b, then b is the final branch name; when
the actual version differs from the desired one the final name is the
one recomputed from the actual version and the branch was renamed in
place with git branch -M (never recreated: the only branch creation
in the trace is the initial one); when they are equal no rename
happens at all; the push and the pr-branch output carry only the
final name. -/
theorem rename_on_version_change (env : Env) (inp : Inputs) (crates : List Crate)
    (nv b : String)
    (hfind : (findCrates env inp.crate).result = .ok crates)
    (hrel : (runCargoRelease env crates inp.version
        (makeBranchName inp.version (some (branchCoreOf crates)) inp.git)).result = .ok nv)
    (hpush : Event.exec "git" ["push", "origin", b] none ∈ (mainModel env inp).events) :
    b = finalBranch inp crates nv ∧
    (inp.version ≠ nv →
      finalBranch inp crates nv = makeBranchName nv (some (branchCoreOf crates)) inp.git ∧
      Event.exec "git" ["branch", "-M", finalBranch inp crates nv] none ∈
        (mainModel env inp).events) ∧
    (inp.version = nv →
      ∀ e ∈ (mainModel env inp).events, isRenameEvent e = false) ∧
    (∀ b2, Event.exec "git" ["switch", "-c", b2] none ∈ (mainModel env inp).events →
      b2 = makeBranchName inp.version (some (branchCoreOf crates)) inp.git) ∧
    (∀ b2, Event.exec "git" ["push", "origin", b2] none ∈ (mainModel env inp).events →
      b2 = finalBranch inp crates nv) ∧
    Event.output "pr-branch" (finalBranch inp crates nv) ∈ (mainModel env inp).events := by
  rcases mainModel_decomp env inp with hleft |
    ⟨crates2, nv2, A, B, hfind2, hrel2, hev, hA, hB, hvA, hren, hArename, hAswitch⟩
  · exact absurd ((hleft _ hpush).1) (by simp [isPushEvent])
  · rw [hfind] at hfind2
    injection hfind2 with hcr
    subst hcr
    rw [hrel] at hrel2
    injection hrel2 with hnv
    subst hnv
    have hpushuniq : ∀ b2, Event.exec "git" ["push", "origin", b2] none ∈
        (mainModel env inp).events → b2 = finalBranch inp crates nv := by
      intro b2 hmem
      rw [hev] at hmem
      rcases List.mem_append.mp hmem with hin | hin
      · exact absurd ((hA _ hin).1) (by simp [isPushEvent])
      · rcases List.mem_cons.mp hin with heq | hin
        · simp at heq
        · rcases List.mem_cons.mp hin with heq | hin
          · simpa using heq
          · exact absurd ((hB _ hin).1) (by simp [isPushEvent])
    refine ⟨hpushuniq b hpush, ?_, ?_, ?_, hpushuniq, ?_⟩
    · intro hne
      refine ⟨by rw [finalBranch, if_pos (by simpa using hne)], ?_⟩
      rw [hev]
      exact List.mem_append_left _ (hren hne)
    · intro hveq e he
      rw [hev] at he
      rcases List.mem_append.mp he with hin | hin
      · by_cases hre : isRenameEvent e = true
        · exact absurd hveq (hArename e hin hre).1
        · simpa using hre
      · rcases List.mem_cons.mp hin with rfl | hin
        · rfl
        · rcases List.mem_cons.mp hin with rfl | hin
          · rfl
          · exact (hB _ hin).2.2.1
    · intro b2 hmem
      rw [hev] at hmem
      rcases List.mem_append.mp hmem with hin | hin
      · have := hAswitch _ hin (by simp [isSwitchEvent])
        simpa using this
      · rcases List.mem_cons.mp hin with heq | hin
        · simp at heq
        · rcases List.mem_cons.mp hin with heq | hin
          · simp at heq
          · exact absurd ((hB _ hin).2.2.2) (by simp [isSwitchEvent])
    · rw [hev]
      exact List.mem_append_right _ (List.mem_cons_self _ _)

/-- Witness for C3 at the concrete environment: the desired symbolic
version minor resolved to 1.3.0, the branch was renamed and the final
name pushed. -/
theorem rename_on_version_change_w :
    "release/alpha/1.3.0" =
      finalBranch cInp [⟨"alpha", "/ws/alpha", "1.2.3"⟩] "1.3.0" ∧
    Event.exec "git" ["branch", "-M", "release/alpha/1.3.0"] none ∈
      (mainModel cEnv cInp).events ∧
    Event.output "pr-branch" "release/alpha/1.3.0" ∈ (mainModel cEnv cInp).events := by
  have h := rename_on_version_change cEnv cInp [⟨"alpha", "/ws/alpha", "1.2.3"⟩]
    "1.3.0" "release/alpha/1.3.0" (by decide) (by decide) (by decide)
  refine ⟨h.1, ?_, ?_⟩
  · have h2 := (h.2.1 (by decide)).2
    have hfb : finalBranch cInp [⟨"alpha", "/ws/alpha", "1.2.3"⟩] "1.3.0" =
        "release/alpha/1.3.0" := by decide
    rw [hfb] at h2
    exact h2
  · have h6 := h.2.2.2.2.2
    have hfb : finalBranch cInp [⟨"alpha", "/ws/alpha", "1.2.3"⟩] "1.3.0" =
        "release/alpha/1.3.0" := by decide
    rw [hfb] at h6
    exact h6

/-- Claim C4: when the version read back after the release tool ran
equals the pre-release version, the orchestrator fails with the
identical-version error and the trace contains neither a push nor a
pull-request creation. -/
theorem identical_version_aborts (env : Env) (inp : Inputs)
    (crates : List Crate) (c0 n0 : Crate) (crest nrest : List Crate)
    (hexec : ∀ p a, env.execExit p a = 0)
    (hdb : env.defaultBranchOk = true)
    (hfind : (findCrates env inp.crate).result = .ok crates)
    (hc : crates = c0 :: crest)
    (hafter : pkgidSelect env.realpath (reResolveArgs crates) env.pkgsAfter =
      .ok (n0 :: nrest))
    (heq : n0.version = c0.version) :
    (mainModel env inp).result = .error "New and old versions are identical, not proceeding" ∧
    (∀ e ∈ (mainModel env inp).events,
      isPushEvent e = false ∧ isCreatePREvent e = false) := by
  have hrel : (runCargoRelease env crates inp.version
      (makeBranchName inp.version (some (branchCoreOf crates)) inp.git)).result =
      .error "New and old versions are identical, not proceeding" := by
    rw [result_runCargoRelease env crates _ _ hexec, hafter]
    subst hc
    simp [heq]
  constructor
  · unfold mainModel
    simp only [M.bind_def, M.result_bind, hfind, result_setGithubUser env inp.git hexec,
      result_unshallowGit env hexec, result_fetchGitTags env hexec,
      result_makeBranch env _ hexec, hrel, M.pure_def, M.result_pur]
    split
    · simp
    · exfalso
      rename_i e2 heq2
      split at heq2
      · simp at heq2
      · rw [result_getDefaultBranch env hdb] at heq2
        simp at heq2
  · intro e he
    rcases mainModel_decomp env inp with hleft |
      ⟨crates2, nv2, A, B, hfind2, hrel2, _⟩
    · exact ⟨(hleft e he).1, (hleft e he).2.1⟩
    · rw [hfind] at hfind2
      injection hfind2 with hcr
      subst hcr
      rw [hrel] at hrel2
      exact absurd hrel2 (by simp)

/-- Witness for C4: a run in which the release tool no-ops fails with
the identical-version error and neither pushes nor opens a pull
request. -/
theorem identical_version_aborts_w :
    (mainModel cEnvNoop cInp).result =
      .error "New and old versions are identical, not proceeding" ∧
    (∀ e ∈ (mainModel cEnvNoop cInp).events,
      isPushEvent e = false ∧ isCreatePREvent e = false) := by
  have h := identical_version_aborts cEnvNoop cInp [⟨"alpha", "/ws/alpha", "1.2.3"⟩]
    ⟨"alpha", "/ws/alpha", "1.2.3"⟩ ⟨"alpha", "/ws/alpha", "1.2.3"⟩ [] []
    (fun _ _ => rfl) rfl (by decide) rfl (by decide) rfl
  exact h

/-- The only pull-request creation makePR performs carries a template
variable bag whose previous version is the first selected package's
pre-release version. -/
theorem makePR_vars_previous (env : Env) (inp : Inputs) (c0 : Crate) (crest : List Crate)
    (baseBranch branchName newVersion : String) :
    ∀ vars t bo hd ba, Event.createPR vars t bo hd ba ∈
        (makePR env inp (c0 :: crest) baseBranch branchName newVersion).events →
      vars.version.previous = c0.version := by
  intro vars t bo hd ba hmem
  rw [makePR] at hmem
  simp only [List.head?_cons] at hmem
  simp only [M.bind_def, M.mem_events_bind, M.events_emit, M.events_ofExcept,
    M.pure_def, M.events_pur, List.mem_singleton, List.not_mem_nil,
    M.result_emit, Except.ok.injEq] at hmem
  rcases hmem with hmem | ⟨t1, _, hmem⟩
  · split at hmem
    · simp only [M.bind_def, M.mem_events_bind, M.events_emit, M.events_ofExcept,
        M.pure_def, M.events_pur, List.mem_singleton, List.not_mem_nil,
        M.result_emit] at hmem
      rcases hmem with hmem | ⟨_, _, hmem⟩
      · simp at hmem
      · rcases hmem with hmem | ⟨_, _, hmem⟩ <;> simp at hmem
    · simp at hmem
  · rcases hmem with hmem | ⟨t2, _, hmem⟩
    · split at hmem
      · simp only [M.bind_def, M.mem_events_bind, M.events_emit, M.events_ofExcept,
          M.pure_def, M.events_pur, List.mem_singleton, List.not_mem_nil,
          M.result_emit] at hmem
        rcases hmem with hmem | ⟨_, _, hmem⟩ <;> simp at hmem
      · simp at hmem
    · rcases hmem with hmem | ⟨_, _, hmem⟩
      · rw [Event.createPR.injEq] at hmem
        rw [hmem.1]
      · split at hmem
        · simp only [M.bind_def, M.mem_events_bind, M.events_emit, M.events_ofExcept,
            M.pure_def, M.events_pur, List.mem_singleton, List.not_mem_nil,
            false_or] at hmem
          obtain ⟨a, _, hmem⟩ := hmem
          simp at hmem
        · simp at hmem

/-- Claim C10: with several (or one) selected packages, the
post-release reconciliation bases the reported new version and the
identical-version comparison solely on the head of the re-resolved
post-release snapshot against the head of the pre-release selection
(other resolved packages are ignored: a different tail gives the same
outcome); the re-resolution selector for a multi-package selection is
exactly release-all, whose version-equality re-check is the only
divergence check; and the previous version exposed to the
pull-request templates is the first selected package's pre-release
version. -/
theorem reconciliation_uses_first_package
    (env env' : Env) (inp : Inputs) (c0 : Crate) (crest : List Crate)
    (version branchName baseBranch newVersion : String)
    (n0 : Crate) (nrest nrest' : List Crate)
    (hexec : ∀ p a, env.execExit p a = 0)
    (hexec' : ∀ p a, env'.execExit p a = 0)
    (hafter : pkgidSelect env.realpath (reResolveArgs (c0 :: crest)) env.pkgsAfter =
      .ok (n0 :: nrest))
    (hafter' : pkgidSelect env'.realpath (reResolveArgs (c0 :: crest)) env'.pkgsAfter =
      .ok (n0 :: nrest')) :
    (runCargoRelease env (c0 :: crest) version branchName).result =
      (if n0.version == c0.version then
        .error "New and old versions are identical, not proceeding"
      else .ok n0.version) ∧
    (runCargoRelease env (c0 :: crest) version branchName).result =
      (runCargoRelease env' (c0 :: crest) version branchName).result ∧
    (crest ≠ [] →
      reResolveArgs (c0 :: crest) = { name := none, path := none, releaseAll := true }) ∧
    (∀ vars t bo hd ba, Event.createPR vars t bo hd ba ∈
        (makePR env inp (c0 :: crest) baseBranch branchName newVersion).events →
      vars.version.previous = c0.version) := by
  have h1 : (runCargoRelease env (c0 :: crest) version branchName).result =
      (if n0.version == c0.version then
        .error "New and old versions are identical, not proceeding"
      else .ok n0.version) := by
    rw [result_runCargoRelease env _ _ _ hexec, hafter]
    simp
  have h1' : (runCargoRelease env' (c0 :: crest) version branchName).result =
      (if n0.version == c0.version then
        .error "New and old versions are identical, not proceeding"
      else .ok n0.version) := by
    rw [result_runCargoRelease env' _ _ _ hexec', hafter']
    simp
  refine ⟨h1, h1.trans h1'.symm, ?_, makePR_vars_previous env inp c0 crest _ _ _⟩
  intro hne
  cases crest with
  | nil => exact absurd rfl hne
  | cons c1 rest => rfl

/-- Witness for C10 at the concrete environment. -/
theorem reconciliation_uses_first_package_w :
    (runCargoRelease cEnv [⟨"alpha", "/ws/alpha", "1.2.3"⟩] "minor" "b").result =
      .ok "1.3.0" := by
  have h := reconciliation_uses_first_package cEnv cEnv cInp
    ⟨"alpha", "/ws/alpha", "1.2.3"⟩ [] "minor" "b" "main" "1.3.0"
    ⟨"alpha", "/ws/alpha", "1.3.0"⟩ [] []
    (fun _ _ => rfl) (fun _ _ => rfl) (by decide) (by decide)
  exact h.1.trans (by decide)

/-- Shape of the events the resolver can emit: tool probes, installer
invocations and the workspace listing, all without a working
directory. -/
theorem pkgid_events_shape (env : Env) (crate : CrateArgs) (pkgs : List Crate) :
    ∀ e ∈ (pkgid env crate pkgs).events,
      e = .exec "cargo-workspaces" ["--help"] none ∨
      e = .exec "cargo-binstall" ["--help"] none ∨
      e = .exec "cargo" ["binstall", "--no-confirm", "cargo-workspaces"] none ∨
      e = .exec "cargo" ["install", "cargo-workspaces"] none ∨
      e = .exec "cargo" ["workspaces", "list", "--json"] none := by
  intro e he
  simp only [pkgid, M.bind_def, M.mem_events_bind, events_execWithOutput,
    M.events_ofExcept, List.mem_singleton, List.not_mem_nil] at he
  rcases he with he | ⟨a, _, he⟩
  · simp only [installToolIfNotExists, M.bind_def, M.mem_events_bind, events_toolExists,
      result_toolExists, events_execAndSucceed, M.events_pur, List.mem_singleton,
      List.not_mem_nil, Except.ok.injEq] at he
    rcases he with rfl | ⟨b, hb, he⟩
    · exact Or.inl rfl
    · cases b with
      | true => simp at he
      | false =>
          simp only [Bool.not_false, if_true, M.mem_events_bind, events_toolExists,
            result_toolExists, List.mem_singleton, Except.ok.injEq] at he
          rcases he with rfl | ⟨c, hc, he⟩
          · exact Or.inr (Or.inl rfl)
          · cases c <;>
              simp only [if_true, if_false, Bool.false_eq_true, events_execAndSucceed,
                List.mem_singleton, reduceIte] at he <;> subst he
            · exact Or.inr (Or.inr (Or.inr (Or.inl rfl)))
            · exact Or.inr (Or.inr (Or.inl rfl))
  · rcases he with he | ⟨b, _, he⟩
    · subst he
      exact Or.inr (Or.inr (Or.inr (Or.inr rfl)))
    · simp_all

/-- Every event of installToolIfNotExists is one of four fixed exec
probes or install commands for the tool. -/
theorem installTool_events_shape (env : Env) (tool : String) :
    ∀ e ∈ (installToolIfNotExists env tool).events,
      e = .exec tool ["--help"] none ∨
      e = .exec "cargo-binstall" ["--help"] none ∨
      e = .exec "cargo" ["binstall", "--no-confirm", tool] none ∨
      e = .exec "cargo" ["install", tool] none := by
  intro e he
  simp only [installToolIfNotExists, M.bind_def, M.mem_events_bind, events_toolExists,
    result_toolExists, List.mem_singleton, Except.ok.injEq, exists_eq_left,
    exists_eq_left'] at he
  rcases he with rfl | he
  · exact Or.inl rfl
  · split at he
    · simp only [M.bind_def, M.mem_events_bind, events_toolExists, result_toolExists,
        List.mem_singleton, Except.ok.injEq, exists_eq_left, exists_eq_left'] at he
      rcases he with rfl | he
      · exact Or.inr (Or.inl rfl)
      · split at he <;> simp only [events_execAndSucceed, List.mem_singleton] at he <;>
          subst he
        · exact Or.inr (Or.inr (Or.inl rfl))
        · exact Or.inr (Or.inr (Or.inr rfl))
    · simp only [M.pure_def, M.events_pur, List.not_mem_nil] at he

/-- When the detected cargo-release version meets the 0.23.0 threshold,
the old-style single release invocation is never executed. -/
theorem runCR_no_old (env : Env) (crates : List Crate) (version branchName : String)
    (h3 : env.execExit "cargo" ["release", "--version"] = 0)
    (hthr : (match crVersionOf (env.stdoutOf "cargo" ["release", "--version"]) with
      | some v => crThreshold v
      | none => false) = true) :
    ∀ e ∈ (runCargoRelease env crates version branchName).events,
      e ≠ .exec "cargo" ["release", "--execute", "--no-push", "--no-tag", "--no-publish",
        "--no-confirm", "--verbose", "--allow-branch", branchName, version]
        (some (cwdOf env crates)) := by
  intro e he
  simp only [runCargoRelease, M.bind_def, M.mem_events_bind, events_execWithOutput,
    List.mem_singleton] at he
  rcases he with he | ⟨a, _, he⟩
  · rcases installTool_events_shape env _ e he with rfl | rfl | rfl | rfl <;> simp
  · rcases he with rfl | ⟨b, _, he⟩
    · simp
    · rcases he with rfl | ⟨c, hc, he⟩
      · simp
      · simp only [result_execWithOutput, h3, bne_self_eq_false, Bool.false_eq_true,
          if_false, Except.ok.injEq] at hc
        subst hc
        rcases he with he | ⟨d, _, he⟩
        · split at he
          · simp only [M.bind_def, M.mem_events_bind, M.events_tryCatch,
              events_execAndSucceed, M.events_pur, List.mem_singleton, List.mem_append,
              List.not_mem_nil, or_false] at he
            rcases he with (he | he) | ⟨u, _, he⟩
            · subst he; simp
            · split at he
              · simp at he
              · simp only [M.pure_def, M.events_pur, List.not_mem_nil] at he
            · rcases he with rfl | ⟨u2, _, he⟩
              · simp
              · rcases he with rfl | ⟨u3, _, he⟩
                · simp
                · rcases he with rfl | ⟨u4, _, he⟩
                  · simp
                  · rcases he with rfl | ⟨u5, _, rfl⟩
                    · simp
                    · simp
          · rename_i hcond
            exact absurd hthr hcond
        · rcases he with he | ⟨nc, _, he⟩
          · rcases pkgid_events_shape env _ _ e he with rfl | rfl | rfl | rfl | rfl <;>
              simp
          · rcases he with he | ⟨nv, _, he⟩
            · split at he <;> simp at he
            · split at he
              · simp at he
              · split at he
                · simp at he
                · simp only [M.bind_def, M.mem_events_bind, M.events_emit,
                    M.events_pur, List.mem_singleton, List.not_mem_nil] at he
                  rcases he with rfl | ⟨_, _, h⟩
                  · simp
                  · simp at h

/-- When the detected cargo-release version misses the 0.23.0 threshold,
the changes-preview subcommand is never executed. -/
theorem runCR_no_changes (env : Env) (crates : List Crate) (version branchName : String)
    (h3 : env.execExit "cargo" ["release", "--version"] = 0)
    (hthr : (match crVersionOf (env.stdoutOf "cargo" ["release", "--version"]) with
      | some v => crThreshold v
      | none => false) = false) :
    ∀ e ∈ (runCargoRelease env crates version branchName).events,
      e ≠ .exec "cargo" ["release", "changes"] (some (cwdOf env crates)) := by
  intro e he
  simp only [runCargoRelease, M.bind_def, M.mem_events_bind, events_execWithOutput,
    List.mem_singleton] at he
  rcases he with he | ⟨a, _, he⟩
  · rcases installTool_events_shape env _ e he with rfl | rfl | rfl | rfl <;> simp
  · rcases he with rfl | ⟨b, _, he⟩
    · simp
    · rcases he with rfl | ⟨c, hc, he⟩
      · simp
      · simp only [result_execWithOutput, h3, bne_self_eq_false, Bool.false_eq_true,
          if_false, Except.ok.injEq] at hc
        subst hc
        rcases he with he | ⟨d, _, he⟩
        · split at he
          · rename_i hcond
            rw [hthr] at hcond
            simp at hcond
          · simp only [events_execAndSucceed, List.mem_singleton] at he
            subst he
            simp
        · rcases he with he | ⟨nc, _, he⟩
          · rcases pkgid_events_shape env _ _ e he with rfl | rfl | rfl | rfl | rfl <;>
              simp
          · rcases he with he | ⟨nv, _, he⟩
            · split at he <;> simp at he
            · split at he
              · simp at he
              · split at he
                · simp at he
                · simp only [M.bind_def, M.mem_events_bind, M.events_emit,
                    M.events_pur, List.mem_singleton, List.not_mem_nil] at he
                  rcases he with rfl | ⟨_, _, h⟩
                  · simp
                  · simp at h

/-- Claim C5: the orchestrator picks the release-tool invocation
style by parsing the reported tool version: the newer multi-subcommand
flow runs exactly when the detected (cleaned) version satisfies the
at-least-0.23.0 threshold and the older single-command flow exactly
otherwise; the changes-preview step is guarded so that its failure is
swallowed and execution continues to the version bump; and every
other subcommand failure aborts the whole run with the tool error
(version bump, check, replace, hook, commit, and the old-style single
command). -/
theorem release_style_detection (env : Env) (crates : List Crate)
    (version branchName : String)
    (h1 : env.execExit "cargo-release" ["--help"] = 0)
    (h2 : env.execExit "cargo" ["metadata", "--format-version=1"] = 0)
    (h3 : env.execExit "cargo" ["release", "--version"] = 0) :
    ((match crVersionOf (env.stdoutOf "cargo" ["release", "--version"]) with
      | some v => crThreshold v
      | none => false) = true ↔
      ∃ v, crVersionOf (env.stdoutOf "cargo" ["release", "--version"]) = some v ∧
        crThreshold v = true) ∧
    ((match crVersionOf (env.stdoutOf "cargo" ["release", "--version"]) with
      | some v => crThreshold v
      | none => false) = true →
      Event.exec "cargo" ["release", "changes"] (some (cwdOf env crates)) ∈
        (runCargoRelease env crates version branchName).events ∧
      Event.exec "cargo" ["release", "version", version, "--execute", "--verbose",
          "--no-confirm", "--allow-branch", branchName] (some (cwdOf env crates)) ∈
        (runCargoRelease env crates version branchName).events ∧
      Event.exec "cargo" ["release", "--execute", "--no-push", "--no-tag",
          "--no-publish", "--no-confirm", "--verbose", "--allow-branch", branchName,
          version] (some (cwdOf env crates)) ∉
        (runCargoRelease env crates version branchName).events) ∧
    ((match crVersionOf (env.stdoutOf "cargo" ["release", "--version"]) with
      | some v => crThreshold v
      | none => false) = false →
      Event.exec "cargo" ["release", "--execute", "--no-push", "--no-tag",
          "--no-publish", "--no-confirm", "--verbose", "--allow-branch", branchName,
          version] (some (cwdOf env crates)) ∈
        (runCargoRelease env crates version branchName).events ∧
      Event.exec "cargo" ["release", "changes"] (some (cwdOf env crates)) ∉
        (runCargoRelease env crates version branchName).events) ∧
    (M.tryCatch (execAndSucceed env "cargo" ["release", "changes"]
        (some (cwdOf env crates))) (fun _ => M.pur ())).result = .ok () ∧
    ((match crVersionOf (env.stdoutOf "cargo" ["release", "--version"]) with
      | some v => crThreshold v
      | none => false) = true →
      env.execExit "cargo" ["release", "version", version, "--execute", "--verbose",
          "--no-confirm", "--allow-branch", branchName] ≠ 0 →
      (runCargoRelease env crates version branchName).result =
        .error ("cargo exited with code " ++ toString (env.execExit "cargo"
          ["release", "version", version, "--execute", "--verbose", "--no-confirm",
            "--allow-branch", branchName])) ∧
      Event.exec "cargo" ["release", "commit", "--execute", "--verbose", "--no-confirm"]
          (some (cwdOf env crates)) ∉
        (runCargoRelease env crates version branchName).events) ∧
    ((match crVersionOf (env.stdoutOf "cargo" ["release", "--version"]) with
      | some v => crThreshold v
      | none => false) = true →
      env.execExit "cargo" ["release", "version", version, "--execute", "--verbose",
          "--no-confirm", "--allow-branch", branchName] = 0 →
      env.execExit "cargo" ["check"] ≠ 0 →
      (runCargoRelease env crates version branchName).result =
        .error ("cargo exited with code " ++ toString (env.execExit "cargo" ["check"]))) ∧
    ((match crVersionOf (env.stdoutOf "cargo" ["release", "--version"]) with
      | some v => crThreshold v
      | none => false) = true →
      env.execExit "cargo" ["release", "version", version, "--execute", "--verbose",
          "--no-confirm", "--allow-branch", branchName] = 0 →
      env.execExit "cargo" ["check"] = 0 →
      env.execExit "cargo" ["release", "replace", "--execute", "--verbose", "--no-confirm"] ≠ 0 →
      (runCargoRelease env crates version branchName).result =
        .error ("cargo exited with code " ++ toString (env.execExit "cargo"
          ["release", "replace", "--execute", "--verbose", "--no-confirm"]))) ∧
    ((match crVersionOf (env.stdoutOf "cargo" ["release", "--version"]) with
      | some v => crThreshold v
      | none => false) = true →
      env.execExit "cargo" ["release", "version", version, "--execute", "--verbose",
          "--no-confirm", "--allow-branch", branchName] = 0 →
      env.execExit "cargo" ["check"] = 0 →
      env.execExit "cargo" ["release", "replace", "--execute", "--verbose", "--no-confirm"] = 0 →
      env.execExit "cargo" ["release", "hook", "--execute", "--verbose", "--no-confirm"] ≠ 0 →
      (runCargoRelease env crates version branchName).result =
        .error ("cargo exited with code " ++ toString (env.execExit "cargo"
          ["release", "hook", "--execute", "--verbose", "--no-confirm"]))) ∧
    ((match crVersionOf (env.stdoutOf "cargo" ["release", "--version"]) with
      | some v => crThreshold v
      | none => false) = true →
      env.execExit "cargo" ["release", "version", version, "--execute", "--verbose",
          "--no-confirm", "--allow-branch", branchName] = 0 →
      env.execExit "cargo" ["check"] = 0 →
      env.execExit "cargo" ["release", "replace", "--execute", "--verbose", "--no-confirm"] = 0 →
      env.execExit "cargo" ["release", "hook", "--execute", "--verbose", "--no-confirm"] = 0 →
      env.execExit "cargo" ["release", "commit", "--execute", "--verbose", "--no-confirm"] ≠ 0 →
      (runCargoRelease env crates version branchName).result =
        .error ("cargo exited with code " ++ toString (env.execExit "cargo"
          ["release", "commit", "--execute", "--verbose", "--no-confirm"]))) ∧
    ((match crVersionOf (env.stdoutOf "cargo" ["release", "--version"]) with
      | some v => crThreshold v
      | none => false) = false →
      env.execExit "cargo" ["release", "--execute", "--no-push", "--no-tag",
          "--no-publish", "--no-confirm", "--verbose", "--allow-branch", branchName,
          version] ≠ 0 →
      (runCargoRelease env crates version branchName).result =
        .error ("cargo exited with code " ++ toString (env.execExit "cargo"
          ["release", "--execute", "--no-push", "--no-tag", "--no-publish",
            "--no-confirm", "--verbose", "--allow-branch", branchName, version]))) := by
  have hinstE : (installToolIfNotExists env "cargo-release").events =
      [Event.exec "cargo-release" ["--help"] none] := by
    simp [installToolIfNotExists, toolExists, h1]
  have hinstR : (installToolIfNotExists env "cargo-release").result = .ok () := by
    simp [installToolIfNotExists, toolExists, h1]
  have hch : (M.tryCatch (execAndSucceed env "cargo" ["release", "changes"]
      (some (cwdOf env crates))) (fun _ => M.pur ())).result = .ok () := by
    simp only [M.result_tryCatch, result_execAndSucceed]
    split <;> simp
  refine ⟨?_, ?_, ?_, hch, ?_, ?_, ?_, ?_, ?_, ?_⟩
  · cases hv : crVersionOf (env.stdoutOf "cargo" ["release", "--version"]) with
    | none => simp
    | some v => simp
  · intro hthr
    refine ⟨?_, ?_, ?_⟩
    · rw [runCargoRelease]
      simp only [M.bind_def, M.mem_events_bind, hinstE, hinstR, events_execWithOutput,
        result_execWithOutput, h2, h3, bne_self_eq_false, Bool.false_eq_true, if_false,
        Except.ok.injEq, exists_eq_left, hthr, if_true, M.events_tryCatch,
        events_execAndSucceed, hch, List.mem_singleton, List.mem_append,
        List.not_mem_nil, M.events_pur, M.result_pur, M.pure_def, exists_eq_left',
        exists_const, true_and]
      tauto
    · rw [runCargoRelease]
      simp only [M.bind_def, M.mem_events_bind, hinstE, hinstR, events_execWithOutput,
        result_execWithOutput, h2, h3, bne_self_eq_false, Bool.false_eq_true, if_false,
        Except.ok.injEq, exists_eq_left, hthr, if_true, M.events_tryCatch,
        events_execAndSucceed, hch, List.mem_singleton, List.mem_append,
        List.not_mem_nil, M.events_pur, M.result_pur, M.pure_def, exists_eq_left',
        exists_const, true_and]
      tauto
    · intro hmem
      exact runCR_no_old env crates version branchName h3 hthr _ hmem rfl
  · intro hthr
    refine ⟨?_, ?_⟩
    · rw [runCargoRelease]
      simp only [M.bind_def, M.mem_events_bind, hinstE, hinstR, events_execWithOutput,
        result_execWithOutput, h2, h3, bne_self_eq_false, Bool.false_eq_true, if_false,
        Except.ok.injEq, exists_eq_left, hthr, M.events_tryCatch,
        events_execAndSucceed, hch, List.mem_singleton, List.mem_append,
        List.not_mem_nil, M.events_pur, M.result_pur, M.pure_def, exists_eq_left',
        exists_const, true_and]
      tauto
    · intro hmem
      exact runCR_no_changes env crates version branchName h3 hthr _ hmem rfl
  · intro hthr hv
    have hvb : (env.execExit "cargo" ["release", "version", version, "--execute",
        "--verbose", "--no-confirm", "--allow-branch", branchName] != 0) = true := by
      simpa using hv
    constructor
    · rw [runCargoRelease]
      simp only [M.bind_def, M.result_bind, hinstR, result_execWithOutput, h2, h3,
        bne_self_eq_false, Bool.false_eq_true, if_false, hthr, if_true, hch,
        result_execAndSucceed, hvb, M.pure_def, M.result_pur]
      simp
    · intro hmem
      rw [runCargoRelease] at hmem
      simp only [M.bind_def, M.mem_events_bind, hinstE, hinstR, events_execWithOutput,
        result_execWithOutput, h2, h3, bne_self_eq_false, Bool.false_eq_true, if_false,
        Except.ok.injEq, exists_eq_left, hthr, if_true, M.events_tryCatch,
        events_execAndSucceed, hch, result_execAndSucceed, hvb, List.mem_singleton,
        List.mem_append, List.not_mem_nil, M.events_pur, M.result_pur, M.pure_def,
        exists_eq_left', exists_const, true_and, Event.exec.injEq, List.cons.injEq,
        and_true, Option.some.injEq, String.reduceEq, and_false, false_and,
        false_or, or_false, exists_false, not_false_eq_true, reduceCtorEq] at hmem
      rcases hmem with hmem | ⟨a, ha, _⟩
      · revert hmem
        split <;> simp
      · simp only [M.result_bind, M.result_tryCatch, hch, result_execAndSucceed, hvb,
          if_true] at ha
        split at ha <;> simp at ha
  · intro hthr hv hc
    have hcb : (env.execExit "cargo" ["check"] != 0) = true := by simpa using hc
    rw [runCargoRelease]
    simp only [M.bind_def, M.result_bind, hinstR, result_execWithOutput, h2, h3,
      bne_self_eq_false, Bool.false_eq_true, if_false, hthr, if_true, hch,
      result_execAndSucceed, hv, hcb, M.pure_def, M.result_pur]
    simp
  · intro hthr hv hc hr
    have hrb : (env.execExit "cargo"
        ["release", "replace", "--execute", "--verbose", "--no-confirm"] != 0) = true := by
      simpa using hr
    rw [runCargoRelease]
    simp only [M.bind_def, M.result_bind, hinstR, result_execWithOutput, h2, h3,
      bne_self_eq_false, Bool.false_eq_true, if_false, hthr, if_true, hch,
      result_execAndSucceed, hv, hc, hrb, M.pure_def, M.result_pur]
    simp
  · intro hthr hv hc hr hh
    have hhb : (env.execExit "cargo"
        ["release", "hook", "--execute", "--verbose", "--no-confirm"] != 0) = true := by
      simpa using hh
    rw [runCargoRelease]
    simp only [M.bind_def, M.result_bind, hinstR, result_execWithOutput, h2, h3,
      bne_self_eq_false, Bool.false_eq_true, if_false, hthr, if_true, hch,
      result_execAndSucceed, hv, hc, hr, hhb, M.pure_def, M.result_pur]
    simp
  · intro hthr hv hc hr hh hco
    have hcob : (env.execExit "cargo"
        ["release", "commit", "--execute", "--verbose", "--no-confirm"] != 0) = true := by
      simpa using hco
    rw [runCargoRelease]
    simp only [M.bind_def, M.result_bind, hinstR, result_execWithOutput, h2, h3,
      bne_self_eq_false, Bool.false_eq_true, if_false, hthr, if_true, hch,
      result_execAndSucceed, hv, hc, hr, hh, hcob, M.pure_def, M.result_pur]
    simp
  · intro hthr ho
    have hob : (env.execExit "cargo" ["release", "--execute", "--no-push", "--no-tag",
        "--no-publish", "--no-confirm", "--verbose", "--allow-branch", branchName,
        version] != 0) = true := by
      simpa using ho
    rw [runCargoRelease]
    simp only [M.bind_def, M.result_bind, hinstR, result_execWithOutput, h2, h3,
      bne_self_eq_false, Bool.false_eq_true, if_false, hthr,
      result_execAndSucceed, hob, M.pure_def, M.result_pur]
    simp

/-- Witness for release_style_detection: in the concrete cooperating
environment (tool version 0.25.10, new style) the changes preview runs
and the old-style single invocation never appears. -/
theorem release_style_detection_w :
    Event.exec "cargo" ["release", "changes"]
        (some (cwdOf cEnv [⟨"alpha", "/ws/alpha", "1.2.3"⟩])) ∈
      (runCargoRelease cEnv [⟨"alpha", "/ws/alpha", "1.2.3"⟩] "minor" "release/minor").events ∧
    Event.exec "cargo" ["release", "--execute", "--no-push", "--no-tag", "--no-publish",
        "--no-confirm", "--verbose", "--allow-branch", "release/minor", "minor"]
        (some (cwdOf cEnv [⟨"alpha", "/ws/alpha", "1.2.3"⟩])) ∉
      (runCargoRelease cEnv [⟨"alpha", "/ws/alpha", "1.2.3"⟩] "minor" "release/minor").events := by
  have h := release_style_detection cEnv [⟨"alpha", "/ws/alpha", "1.2.3"⟩] "minor"
    "release/minor" rfl rfl rfl
  exact ⟨(h.2.1 (by decide)).1, (h.2.1 (by decide)).2.2⟩
